import Mathlib

/-!
# MidiKraft — shallow embedding and verification of spec claims

This file embeds the data model and the operations of the MidiKraft patch
librarian (PatchList, SynthBank, PatchInterchangeFormat, Synth::loadSysex,
AutoDetection::findSynth, and the PatchDatabase merge/delete/query/list
operations) as executable Lean definitions, translated from the C++ sources,
and proves or refutes the frozen specification claims about them.

Modelling conventions:
* byte blobs are `List Nat`;
* the MD5 fingerprint of a patch is modelled by the synth-filtered byte
  sequence itself (an injective abstraction of the digest; the default
  `Synth::filterVoiceRelevantData` is the identity);
* external-library plumbing (JUCE base64, `Sysex::memoryBlockToMessages`)
  that forms a bijection on well-formed message lists is modelled as the
  identity on message lists;
* SQL tables are lists of row structures, and each SQL statement is
  translated clause by clause.
-/

namespace MidiKraft

/-- `Favorite::TFavorite`: DONTKNOW = -1, NO = 0, YES = 1. -/
inductive Fav where
  | dontKnow
  | no
  | yes
deriving DecidableEq, Repr

/-- Integer value of a `Favorite` as stored in the database
(`(int)patch.howFavorite().is()`). -/
def Fav.toInt : Fav → Int
  | .dontKnow => -1
  | .no => 0
  | .yes => 1

/-- `Favorite(int)` constructor: -1 → DONTKNOW, 0 → NO, 1 → YES
(other values assert and fall back to DONTKNOW). -/
def Fav.ofInt (i : Int) : Fav :=
  if i = -1 then .dontKnow else if i = 0 then .no else if i = 1 then .yes else .dontKnow

/-- `Favorite(bool)` constructor: a decided favorite. -/
def Fav.ofBool (b : Bool) : Fav := if b then .yes else .no

/-- `MidiBankNumber` (valid form): zero-based bank number plus bank size.
The invalid bank number is represented by `Option BankNo := none` at use
sites. -/
structure BankNo where
  num : Nat
  size : Nat
deriving DecidableEq, Repr

/-- `MidiProgramNumber`: invalid, zero-based without bank, or zero-based
within a known bank (`fromZeroBaseWithBank`).
Modelled from the spec: `program number (optional, may or may not carry a
bank tag)`; the MidiProgramNumber value type itself is not under src/. -/
inductive ProgramNo where
  | invalid
  | noBank (num : Nat)
  | withBank (bank : BankNo) (num : Nat)
deriving DecidableEq, Repr

/-- `MidiProgramNumber::toZeroBasedDiscardingBank`. -/
def ProgramNo.toZeroBasedDiscardingBank : ProgramNo → Nat
  | .invalid => 0
  | .noBank n => n
  | .withBank _ n => n

/-- `MidiProgramNumber::toZeroBasedWithBank`: an absolute program index
counting across the banks (an invalid program carries -1). -/
def ProgramNo.toZeroBasedWithBank : ProgramNo → Int
  | .invalid => -1
  | .noBank n => n
  | .withBank b n => b.num * b.size + n

/-- `MidiProgramNumber::isBankKnown`. -/
def ProgramNo.isBankKnown : ProgramNo → Bool
  | .withBank _ _ => true
  | _ => false

/-- Zero-based bank of a program number whose bank is known. -/
def ProgramNo.bankNum : ProgramNo → Option Nat
  | .withBank b _ => some b.num
  | _ => none

/-- `SourceInfo` variants (`FromSynthSource`, `FromFileSource`,
`FromBulkImportSource`), carrying the fields their JSON representation
serializes. Timestamps are abstract naturals. -/
inductive SourceInfoM where
  | fromSynth (timestamp : Nat) (bank : Option Nat)
  | fromFile (filename : String) (fullpath : String) (program : Nat)
  | fromBulk (timestamp : Nat) (inner : Option (String × String × Nat))
deriving DecidableEq, Repr

/-- `SourceInfo::isEditBufferImport`: a `FromSynthSource` without a valid
bank number. -/
def SourceInfoM.isEditBufferImport : Option SourceInfoM → Bool
  | some (.fromSynth _ none) => true
  | _ => false

/-- `SourceInfo::md5(synth)`: the MD5 of the display string, used only as a
grouping key for import lists.  Modelled as an injective rendering of the
source info (the digest of a string is abstracted by the string). -/
def SourceInfoM.md5 : SourceInfoM → String
  | .fromSynth t b => "synth-" ++ toString t ++ "-" ++ toString (b.getD 0) ++ "-" ++ toString b.isSome
  | .fromFile f p pr => "file-" ++ f ++ "-" ++ p ++ "-" ++ toString pr
  | .fromBulk t _ => "bulk-" ++ toString t

/-- `PatchHolder`: the unit the catalog stores.  `synth` is the weak synth
reference (by name, `none` when the holder has no synth); `patch` is the
underlying DataFile's bytes (`none` for the null patch of an empty bank
slot).  The `comment`/`author`/`info` free-text accessors are modelled from
the spec: `comment / author / info free-text` attributes with plain
get/set semantics (their trivial accessor definitions are not under src/,
but they are read and written by `PatchDatabase.cpp` and
`PatchInterchangeFormat.cpp`). -/
structure PatchHolderM where
  synth : Option String
  patch : Option (List Nat)
  dataTypeID : Nat := 0
  name : String := ""
  favorite : Fav := .dontKnow
  hidden : Bool := false
  regular : Bool := false
  bank : Option BankNo := none
  program : ProgramNo := .invalid
  categories : List String := []
  userDecisions : List String := []
  comment : String := ""
  author : String := ""
  info : String := ""
  sourceInfo : Option SourceInfoM := none
deriving DecidableEq, Repr

/-- `PatchHolder::md5()` = `synth->calculateFingerprint(patch_)`: MD5 over
the synth-filtered bytes.  The default filter is the identity and the
digest is abstracted by the filtered byte sequence itself. -/
def PatchHolderM.md5 (h : PatchHolderM) : List Nat := h.patch.getD []

/-! ## PatchList (src/librarian/PatchList.cpp) -/

/-- `PatchList::insertPatchAtTopAndRemoveDuplicates`: remove every entry
with the same synth and the same fingerprint (`listEntry.synth() ==
patch.synth() && listEntry.md5() == patch.md5()`, synth identity modelled
by name), then insert the new holder at the front. -/
def insertPatchAtTopAndRemoveDuplicates (patches : List PatchHolderM) (patch : PatchHolderM) :
    List PatchHolderM :=
  patch :: patches.filter (fun e => !(decide (e.synth = patch.synth) && decide (e.md5 = patch.md5)))

/-! ## SynthBank (src/librarian/SynthBank.cpp) -/

/-- The state of a `SynthBank`: name-identified synth, a (valid) bank
number with its size, and the underlying `PatchList` contents. -/
structure SynthBankM where
  synthName : String
  bankNo : BankNo
  patches : List PatchHolderM := []
deriving DecidableEq, Repr

/-- `SynthBank::validatePatchInfo`: the patch must belong to the bank's
synth (checked only when the holder has a synth), carry a valid bank
number equal to the bank's, and - if its program number knows its bank -
that bank must also match. -/
def validatePatchInfo (bank : SynthBankM) (patch : PatchHolderM) : Bool :=
  if patch.synth.isSome && patch.synth ≠ some bank.synthName then false
  else if !(match patch.bank with
            | some b => decide (b.num = bank.bankNo.num)
            | none => false) then false
  else if patch.program.isBankKnown && patch.program.bankNum ≠ some bank.bankNo.num then false
  else true

/-- The empty holder a bank slot is filled with:
`PatchHolder(synth_, nullptr, nullptr)` with bank and program number set.
(The name-defaulting branch in the fill loop is unreachable: at each
iteration `j` equals the current list length.) -/
def emptySlotHolder (bank : SynthBankM) (j : Nat) : PatchHolderM :=
  { synth := some bank.synthName
    patch := none
    bank := some bank.bankNo
    program := .withBank bank.bankNo j }

/-- The renumbering loop of `SynthBank::setPatches`: position `i`
onwards, each patch gets the bank's number and the running program
position. -/
def renumberFrom (bank : SynthBankM) (i : Nat) : List PatchHolderM → List PatchHolderM
  | [] => []
  | p :: rest =>
    { p with bank := some bank.bankNo, program := .withBank bank.bankNo i } ::
      renumberFrom bank (i + 1) rest

/-- The fill loop of `SynthBank::setPatches`: `n` empty holders for the
slots `j, j+1, ...`. -/
def fillSlots (bank : SynthBankM) (j : Nat) : Nat → List PatchHolderM
  | 0 => []
  | n + 1 => emptySlotHolder bank j :: fillSlots bank (j + 1) n

/-- `SynthBank::setPatches`: renumber the given patches to positions
0..n-1 of this bank, fill the remaining slots up to the bank size with
empty holders, validate every resulting holder, and only commit the list
when validation passes. -/
def SynthBank.setPatches (bank : SynthBankM) (xs : List PatchHolderM) : SynthBankM :=
  let filled := renumberFrom bank 0 xs ++ fillSlots bank xs.length (bank.bankNo.size - xs.length)
  if filled.all (validatePatchInfo bank) then { bank with patches := filled } else bank

/-! ## PatchInterchangeFormat (src/librarian/PatchInterchangeFormat.cpp)

The JSON document is modelled as a typed structure: JSON `null` for the
favorite is `none`, absent optional members are `none`, and the base64
encoding of the concatenated sysex messages together with
`Sysex::memoryBlockToMessages` (external juce-utils code, a bijection on
well-formed message lists) is modelled as the identity on message lists. -/

/-- The synth interface the interchange format consumes: name, per-bank
patch count (`SynthBank::numberOfPatchesInBank` via `HasBanksCapability`,
all banks the same size), and the adapter's sysex conversion functions
(`dataFileToSysex` and `loadSysex`, each patch an opaque byte blob). -/
structure SynthPif where
  name : String
  bankSize : Nat
  dataFileToSysex : List Nat → List (List Nat)
  loadSysex : List (List Nat) → List (List Nat)

/-- The category detector (`AutomaticCategory`): the names of the loaded
category rules, and the automatic categorization applied to a patch name
(`determineAutomaticCategories`, regex rules abstracted as a function). -/
structure DetectorM where
  categoryNames : List String
  detect : String → List String

/-- One entry of the `Library` array of a PatchInterchangeFormat document,
with exactly the members `save` can produce. -/
structure PifEntry where
  synth : String
  name : String
  favorite : Option Int
  bank : Option Nat
  place : Nat
  categories : Option (List String)
  nonCategories : Option (List String)
  sourceInfo : Option SourceInfoM
  comment : Option String
  sysex : List (List Nat)
deriving DecidableEq, Repr

/-- A PatchInterchangeFormat document: header version plus library. -/
structure PifDoc where
  version : Nat
  library : List PifEntry
deriving DecidableEq, Repr

/-- `category_intersection` on the holder's category sets (std::set
modelled as a list; only membership matters to the claims). -/
def categoryInter (a b : List String) : List String := a.filter (fun c => b.contains c)

/-- `category_difference`. -/
def categoryDiff (a b : List String) : List String := a.filter (fun c => !b.contains c)

/-- Insertion into a `std::set` of categories: add only when absent. -/
def setInsert (l : List String) (x : String) : List String :=
  if l.contains x then l else l ++ [x]

/-- `PatchInterchangeFormat::save`, one library entry per holder:
Synth, Name, Favorite (DONTKNOW as null), Bank only when valid, Place as
`toZeroBasedDiscardingBank`, the user-decided categories
(intersection of categories and user decisions) and non-categories
(user decisions minus categories) only when non-empty, SourceInfo when
present, Comment only when non-empty, and the patch's sysex messages.
No Author and no Info member is written. -/
def savedEntry (synths : List SynthPif) (patch : PatchHolderM) : PifEntry :=
  let userDefinedCategories := categoryInter patch.categories patch.userDecisions
  let userDefinedNonCategories := categoryDiff patch.userDecisions patch.categories
  { synth := patch.synth.getD ""
    name := patch.name
    favorite := match patch.favorite with
      | .dontKnow => none
      | .yes => some 1
      | .no => some 0
    bank := patch.bank.map (·.num)
    place := patch.program.toZeroBasedDiscardingBank
    categories := if userDefinedCategories.isEmpty then none else some userDefinedCategories
    nonCategories := if userDefinedNonCategories.isEmpty then none else some userDefinedNonCategories
    sourceInfo := patch.sourceInfo
    comment := if patch.comment = "" then none else some patch.comment
    sysex := match synths.find? (fun s => s.name = patch.synth.getD "") with
      | some s => s.dataFileToSysex (patch.patch.getD [])
      | none => [] }

/-- `PatchInterchangeFormat::save`: header `{FileFormat, Version := 1}`
plus the library of saved entries. -/
def savePIF (synths : List SynthPif) (patches : List PatchHolderM) : PifDoc :=
  { version := 1, library := patches.map (savedEntry synths) }

/-- `findCategory`: legacy name mapping (Bells→Bell, FX→SFX), then lookup
among the detector's loaded rules. -/
def findCategory (detector : DetectorM) (categoryName : String) : Option String :=
  let n1 := if categoryName = "Bells" then "Bell" else categoryName
  let n2 := if n1 = "FX" then "SFX" else n1
  if detector.categoryNames.contains n2 then some n2 else none

/-- Loading of one library entry by `PatchInterchangeFormat::load`:
skip when the synth is unknown; parse favorite (null → DONTKNOW, integer
→ decided by ≠ 0), bank (sized via the synth), place (with the bank when
one is valid), categories and non-categories through `findCategory`;
decode the sysex and keep the entry only when the synth parses exactly
one patch; the holder starts from
`PatchHolder(activeSynth, fileSource, patches[0], detector)` (automatic
categories computed from the data file's own name, which is empty for an
adapter without a stored-name capability), then name, favorite, bank,
place, loaded categories (each also a user decision), non-category user
decisions, source info (the file source unless the entry carries one) and
comment are applied.  Author and Info are never read. -/
def loadEntry (activeSynths : List SynthPif) (fileSource : SourceInfoM) (detector : DetectorM)
    (e : PifEntry) : Option PatchHolderM :=
  match activeSynths.find? (fun s => s.name = e.synth) with
  | none => none
  | some activeSynth =>
    let fav : Fav := match e.favorite with
      | some i => Fav.ofBool (i ≠ 0)
      | none => Fav.ofInt (-1)
    let bank : Option BankNo := e.bank.map (fun b => ⟨b, activeSynth.bankSize⟩)
    let place : ProgramNo := match bank with
      | some b => .withBank b e.place
      | none => .noBank e.place
    let categories := (e.categories.getD []).filterMap (findCategory detector)
    let nonCategories := (e.nonCategories.getD []).filterMap (findCategory detector)
    let comment := e.comment.getD ""
    let patches := activeSynth.loadSysex e.sysex
    match patches with
    | [p] =>
      let autoCats := detector.detect ""
      let cats := categories.foldl setInsert autoCats
      let decisions := nonCategories.foldl setInsert (categories.foldl setInsert [])
      some { synth := some activeSynth.name
             patch := some p
             name := e.name
             favorite := fav
             bank := bank
             program := place
             categories := cats
             userDecisions := decisions
             comment := comment
             sourceInfo := some (e.sourceInfo.getD fileSource) }
    | _ => none

/-- `PatchInterchangeFormat::load` of a version-1 document. -/
def loadPIF (activeSynths : List SynthPif) (fileSource : SourceInfoM) (detector : DetectorM)
    (doc : PifDoc) : List PatchHolderM :=
  doc.library.filterMap (loadEntry activeSynths fileSource detector)

/-! ## Synth::loadSysex (src/base/src/Synth.cpp, lines 116-233)

Messages and patches are abstract (`Nat` identifiers); each capability of
the synth is an optional record of the adapter calls the parser consumes.
The per-capability for-loops are translated as structural recursions on
the message list. -/

/-- `ProgramDumpCabability` as consumed by the parser. -/
structure ProgCapsM where
  isMessagePartOfProgramDump : Nat → Bool
  isSingleProgramDump : List Nat → Bool
  patchFromProgramDumpSysex : List Nat → Option Nat

/-- `EditBufferCapability` as consumed by the parser. -/
structure EditCapsM where
  isMessagePartOfEditBuffer : Nat → Bool
  isEditBufferDump : List Nat → Bool
  patchFromSysex : List Nat → Option Nat

/-- `BankDumpCapability` as consumed by the parser. -/
structure BankCapsM where
  isBankDump : Nat → Bool
  isBankDumpFinished : List Nat → Bool
  patchesFromSysexBank : List Nat → List Nat

/-- `DataFileLoadCapability` as consumed by the parser. -/
structure DataCapsM where
  numDataTypes : Nat
  isDataFile : Nat → Nat → Bool
  loadData : Nat → Nat → List Nat

/-- The synth as seen by `loadSysex`: its optional capabilities, its
fingerprint function (`calculateFingerprint`) and the sliding-window
bounds. -/
structure SynthLoadM where
  stream : Option (List Nat → List Nat)
  programDump : Option ProgCapsM
  editBuffer : Option EditCapsM
  bankDump : Option BankCapsM
  dataFile : Option DataCapsM
  fingerprint : Nat → String
  maxMsgsPerPatch : Nat
  maxMsgsPerBank : Nat

/-- The `while (size > max) pop_front()` loop on the program-dump deque:
drop from the front until the size bound holds. -/
def dropToMax (maxN : Nat) (d : List Nat) : List Nat := d.drop (d.length - maxN)

/-- The `if (size > max) pop_front()` step on the edit-buffer and
bank-dump deques: a single drop from the front. -/
def popIfOver (maxN : Nat) (d : List Nat) : List Nat :=
  if d.length > maxN then d.tail else d

/-- The program-dump pass of `loadSysex`: slide a bounded window over the
messages that are part of a program dump; whenever the window is a single
program dump, decode it, emit the patch on success, and clear the window.
Returns the emitted patches in order (the fingerprints recorded in
`programDumpsById` are those of exactly these patches). -/
def progLoop (pc : ProgCapsM) (maxN : Nat) : List Nat → List Nat → List Nat
  | _, [] => []
  | deque, m :: rest =>
    if pc.isMessagePartOfProgramDump m then
      let d := dropToMax maxN (deque ++ [m])
      if pc.isSingleProgramDump d then
        match pc.patchFromProgramDumpSysex d with
        | some p => p :: progLoop pc maxN [] rest
        | none => progLoop pc maxN [] rest
      else progLoop pc maxN d rest
    else progLoop pc maxN deque rest

/-- The edit-buffer pass of `loadSysex`: same window structure; a decoded
patch is emitted only when its fingerprint is not among the program-dump
fingerprints `ids`. -/
def editLoop (ec : EditCapsM) (fp : Nat → String) (maxN : Nat) (ids : List String) :
    List Nat → List Nat → List Nat
  | _, [] => []
  | deque, m :: rest =>
    if ec.isMessagePartOfEditBuffer m then
      let d := popIfOver maxN (deque ++ [m])
      if ec.isEditBufferDump d then
        match ec.patchFromSysex d with
        | some p =>
          if ids.contains (fp p) then editLoop ec fp maxN ids [] rest
          else p :: editLoop ec fp maxN ids [] rest
        | none => editLoop ec fp maxN ids [] rest
      else editLoop ec fp maxN ids d rest
    else editLoop ec fp maxN ids deque rest

/-- The complete edit-buffer patches of a message sequence, with no
duplicate check: the same window machinery as the edit-buffer pass, every
decoded patch emitted.  This is the spec-side notion of `all complete
edit-buffer patches` against which the dedup behaviour is compared. -/
def editCandidates (ec : EditCapsM) (maxN : Nat) : List Nat → List Nat → List Nat
  | _, [] => []
  | deque, m :: rest =>
    if ec.isMessagePartOfEditBuffer m then
      let d := popIfOver maxN (deque ++ [m])
      if ec.isEditBufferDump d then
        match ec.patchFromSysex d with
        | some p => p :: editCandidates ec maxN [] rest
        | none => editCandidates ec maxN [] rest
      else editCandidates ec maxN d rest
    else editCandidates ec maxN deque rest

/-- The bank-dump pass of `loadSysex`. -/
def bankLoop (bc : BankCapsM) (maxN : Nat) : List Nat → List Nat → List Nat
  | _, [] => []
  | deque, m :: rest =>
    if bc.isBankDump m then
      let d := popIfOver maxN (deque ++ [m])
      if bc.isBankDumpFinished d then bc.patchesFromSysexBank d ++ bankLoop bc maxN [] rest
      else bankLoop bc maxN d rest
    else bankLoop bc maxN deque rest

/-- The data-file pass of `loadSysex`: every message against every known
data-file type code. -/
def dataLoop (dc : DataCapsM) (msgs : List Nat) : List Nat :=
  msgs.flatMap (fun m =>
    (List.range dc.numDataTypes).flatMap (fun t =>
      if dc.isDataFile m t then dc.loadData m t else []))

/-- `Synth::loadSysex`: a stream-load synth delegates the whole sequence;
otherwise the four independent passes run in order (program dumps, edit
buffers deduplicated against the program-dump fingerprints, bank dumps,
data files) and their results are concatenated. -/
def loadSysexM (s : SynthLoadM) (msgs : List Nat) : List Nat :=
  match s.stream with
  | some f => f msgs
  | none =>
    let progResults := match s.programDump with
      | some pc => progLoop pc s.maxMsgsPerPatch [] msgs
      | none => []
    let progIds := progResults.map s.fingerprint
    let editResults := match s.editBuffer with
      | some ec => editLoop ec s.fingerprint s.maxMsgsPerPatch progIds [] msgs
      | none => []
    let bankResults := match s.bankDump with
      | some bc => bankLoop bc s.maxMsgsPerBank [] msgs
      | none => []
    let dataResults := match s.dataFile with
      | some dc => dataLoop dc msgs
      | none => []
    progResults ++ editResults ++ bankResults ++ dataResults

/-! ## AutoDetection::findSynth (src/base/src/AutoDetection.cpp) -/

/-- A located `(input, output, channel)` triple (`MidiNetworkLocation`). -/
structure LocationM where
  input : String
  output : String
  channel : Nat
deriving DecidableEq, Repr

/-- The mutable detection state of a `SimpleDiscoverableDevice`. -/
structure DiscoverableM where
  name : String
  channel : Option Nat := none
  input : String := ""
  output : String := ""
deriving DecidableEq, Repr

/-- The settings store, an association of keys to values
(`Settings::set` overwrites). -/
def settingsSet (settings : List (String × String)) (key value : String) :
    List (String × String) :=
  (key, value) :: settings.filter (fun kv => kv.1 ≠ key)

/-- `AutoDetection::persistSetting`: store channel, input and output under
per-synth keys, each only when it carries a real value. -/
def persistSetting (settings : List (String × String)) (synth : DiscoverableM) :
    List (String × String) :=
  let s1 := match synth.channel with
    | some c => settingsSet settings (synth.name ++ "-channel") (toString c)
    | none => settings
  let s2 := if synth.input ≠ "" then settingsSet s1 (synth.name ++ "-input") synth.input else s1
  if synth.output ≠ "" then settingsSet s2 (synth.name ++ "-output") synth.output else s2

/-- `AutoDetection::findSynth` after `detectSynth` returned `locations`:
when at least one triple was found, select `locations[locations.size()-1]`
(the last one), apply it to the synth via `setCurrentChannelZeroBased`,
and persist it; otherwise leave synth and settings unchanged. -/
def findSynthSelect (synth : DiscoverableM) (settings : List (String × String))
    (locations : List LocationM) : DiscoverableM × List (String × String) :=
  match locations.getLast? with
  | some chosen =>
    let synth' := { synth with
      input := chosen.input
      output := chosen.output
      channel := some chosen.channel }
    (synth', persistSetting settings synth')
  | none => (synth, settings)

/-! ## Patch database (src/database/PatchDatabase.cpp)

Tables are lists of row structures; each SQL statement is translated
clause by clause.  The category bit assignments (`CategoryBitfield`) are
an association of category names to bit indexes. -/

/-- A row of the `patches` table (PK `(synth, md5)`), with the columns
`putPatch` writes.  `md5` is the fingerprint (same digest abstraction as
`PatchHolderM.md5`), `sourceInfo` is the serialized source-info TEXT
column (carried as the parsed value), and `regular` is nullable (legacy
rows). -/
structure PatchRow where
  synth : String
  md5 : List Nat
  name : String
  type : Nat
  data : List Nat
  favorite : Int
  regular : Option Int
  hidden : Int
  sourceName : String
  sourceInfo : Option SourceInfoM
  midiBankNo : Option Nat
  midiProgramNo : Int
  categories : Nat
  categoryUserDecision : Nat
  comment : String
  author : String
  info : String
deriving DecidableEq, Repr

/-- A row of the `lists` table (`id` is the primary key; `list_type` is 0
normal, 1 synth-bank, 2 user-bank, 3 import, per PatchListType.h). -/
structure ListRow where
  id : String
  name : String
  synth : Option String
  midiBankNumber : Option Nat
  lastSynced : Option Int
  listType : Nat
deriving DecidableEq, Repr

/-- A row of the `patch_in_list` table. -/
structure PilRow where
  id : String
  synth : String
  md5 : List Nat
  orderNum : Nat
deriving DecidableEq, Repr

/-- The database state: the three tables the verified operations touch. -/
structure DbState where
  patches : List PatchRow
  lists : List ListRow
  pil : List PilRow
deriving DecidableEq, Repr

/-- `patch.synth()->getName()` on a holder (weak synth reference by
name). -/
def synthNameOf (ph : PatchHolderM) : String := ph.synth.getD ""

/-- Does a `patches` row with this key exist
(`SELECT ... WHERE md5 = :MD5 and synth = :SYN`)? -/
def rowExistsB (db : DbState) (synth : String) (md5 : List Nat) : Bool :=
  db.patches.any (fun p => decide (p.synth = synth) && decide (p.md5 = md5))

/-- `CategoryBitfield::categorySetAsBitfield`: OR of `1 << bitIndex` over
the categories found in the bit assignment. -/
def catBitfield (bits : List (String × Nat)) (cats : List String) : Nat :=
  cats.foldl (fun acc c =>
    match bits.find? (fun nb => nb.1 = c) with
    | some nb => acc ||| (1 <<< nb.2)
    | none => acc) 0

/-- `CategoryBitfield::makeSetOfCategoriesFromBitfield`. -/
def rowCats (bits : List (String × Nat)) (mask : Nat) : List String :=
  bits.filterMap (fun nb => if mask.testBit nb.2 then some nb.1 else none)

/-- `category_union` on category sets. -/
def categoryUnion (a b : List String) : List String := a ++ b.filter (fun c => !a.contains c)

/-- Display string of a source info (`SourceInfo::toDisplayString`); the
timestamp/bank-name formatting is abstracted, only the shape of the text
matters (it is stored as `sourceName` and used as the import list's
name). -/
def SourceInfoM.displayString : SourceInfoM → String
  | .fromSynth t b => "Imported from synth " ++ toString (b.getD 0) ++ " " ++ toString b.isSome ++ " on " ++ toString t
  | .fromFile f _ _ => "Imported from file " ++ f
  | .fromBulk t _ => "Bulk import " ++ toString t

/-- `PatchDataBaseImpl::putPatch`: the strict INSERT into `patches`. -/
def putPatchRow (bits : List (String × Nat)) (ph : PatchHolderM) : PatchRow :=
  { synth := synthNameOf ph
    md5 := ph.md5
    name := ph.name
    type := ph.dataTypeID
    data := ph.patch.getD []
    favorite := ph.favorite.toInt
    regular := some (if ph.regular then 1 else 0)
    hidden := if ph.hidden then 1 else 0
    sourceName := (ph.sourceInfo.getD (.fromBulk 0 none)).displayString
    sourceInfo := ph.sourceInfo
    midiBankNo := ph.bank.map (·.num)
    midiProgramNo := ph.program.toZeroBasedWithBank
    categories := catBitfield bits ph.categories
    categoryUserDecision := catBitfield bits ph.userDecisions
    comment := ph.comment
    author := ph.author
    info := ph.info }

/-- `PatchDataBaseImpl::loadPatchFromQueryRow`: rebuild a holder from a
row (the data blob and the source-info TEXT are always present in the
model, and the adapter's `patchFromPatchData` reconstructs the data file
of the stored type, so loading always succeeds).  Banked rows get their
bank size from the synth (`SynthBank::numberOfPatchesInBank`, supplied as
`bankSizeOf`). -/
def loadHolderFromRow (bankSizeOf : String → Nat → Nat) (bits : List (String × Nat))
    (row : PatchRow) : PatchHolderM :=
  let bank : Option BankNo := row.midiBankNo.map (fun b => ⟨b, bankSizeOf row.synth b⟩)
  let program : ProgramNo := match bank with
    | none => .noBank row.midiProgramNo.toNat
    | some b => .withBank b row.midiProgramNo.toNat
  { synth := some row.synth
    patch := some row.data
    dataTypeID := row.type
    name := row.name
    favorite := Fav.ofInt row.favorite
    regular := match row.regular with
      | some r => decide (r = 1)
      | none => false
    hidden := decide (row.hidden = 1)
    bank := bank
    program := program
    categories := rowCats bits row.categories
    userDecisions := rowCats bits row.categoryUserDecision
    comment := row.comment
    author := row.author
    info := row.info
    sourceInfo := row.sourceInfo }

/-- The merge of an incoming text field in `updatePatch`: an empty
incoming value keeps the stored one. -/
def mergedText (newText oldText : String) : String := if newText = "" then oldText else newText

/-- `PatchDataBaseImpl::calculateMergedFavorite`: an undecided incoming
favorite keeps the stored value (as loaded through `Favorite(int)`), a
decided one replaces it. -/
def calculateMergedFavoriteM (np : PatchHolderM) (existingFavorite : Int) : Int :=
  if np.favorite = .dontKnow then (Fav.ofInt existingFavorite).toInt else np.favorite.toInt

/-- `PatchDataBaseImpl::calculateMergedCategories` on the two category /
user-decision sets: returns the merged category set and the merged user
decisions. -/
def mergedCategorySets (np : PatchHolderM) (exCats exDecisions : List String) :
    List String × List String :=
  let newPatchesUserDecided := categoryInter np.categories np.userDecisions
  let newPatchesAutomatic := categoryDiff np.categories np.userDecisions
  let oldUserDecided := categoryInter exCats exDecisions
  let newAutomaticWithoutExistingOverride := categoryDiff newPatchesAutomatic exDecisions
  let oldUserDecidedWithoutNewOverride := categoryDiff oldUserDecided np.userDecisions
  let newCategories := categoryUnion newPatchesUserDecided newAutomaticWithoutExistingOverride
  let finalResult := categoryUnion newCategories oldUserDecidedWithoutNewOverride
  let newUserDecisions := categoryUnion np.userDecisions exDecisions
  (finalResult, newUserDecisions)

/-- `PatchDataBaseImpl::updatePatch` applied to the stored row during a
merge (`UPDATE_ALL`, with the name bit cleared when the incoming name is
a default name): categories and user decisions merged, data, hidden,
regular overwritten, favorite merged, and comment/author/info taking the
incoming value only when it is non-empty. -/
def mergeRowWithIncoming (bits : List (String × Nat)) (np : PatchHolderM) (row : PatchRow)
    (updateName : Bool) : PatchRow :=
  let exCats := rowCats bits row.categories
  let exDecisions := rowCats bits row.categoryUserDecision
  let merged := mergedCategorySets np exCats exDecisions
  { row with
    categories := catBitfield bits merged.1
    categoryUserDecision := catBitfield bits merged.2
    name := if updateName then np.name else row.name
    data := np.patch.getD []
    hidden := if np.hidden then 1 else 0
    favorite := calculateMergedFavoriteM np row.favorite
    regular := some (if np.regular then 1 else 0)
    comment := mergedText np.comment row.comment
    author := mergedText np.author row.author
    info := mergedText np.info row.info }

/-- The in-memory patch list handed to `putPatchList`, with its dynamic
variant (`PatchList` / `ImportList` / `SynthBank`-`UserBank`). -/
inductive ListKindM where
  | normalKind
  | importKind (synth : String)
  | bankKind (synth : String) (bankNum : Nat) (lastSynced : Option Int) (isUserBank : Bool)
deriving DecidableEq, Repr

/-- An in-memory `PatchList` with id, name, variant and contents. -/
structure StoredListM where
  id : String
  name : String
  kind : ListKindM
  patches : List PatchHolderM
deriving DecidableEq, Repr

/-- The `lists` row INSERTed for a list that does not exist yet: synth,
bank and last-synced columns depend on the variant (an import list gets
the current time as `last_synced`, abstracted to 0; a plain list leaves
all three NULL). -/
def newListRow (L : StoredListM) : ListRow :=
  match L.kind with
  | .bankKind s b ls u =>
    { id := L.id, name := L.name, synth := some s, midiBankNumber := some b,
      lastSynced := some (ls.getD 0), listType := if u then 2 else 1 }
  | .importKind s =>
    { id := L.id, name := L.name, synth := some s, midiBankNumber := none,
      lastSynced := some 0, listType := 3 }
  | .normalKind =>
    { id := L.id, name := L.name, synth := none, midiBankNumber := none,
      lastSynced := none, listType := 0 }

/-- The insert loop of `putPatchList`
(`addPatchToListInternal(id, synth, md5, i++)`): one `patch_in_list` row
per member, order numbers counting up from `i`. -/
def pilRowsFrom (listId : String) (i : Nat) : List PatchHolderM → List PilRow
  | [] => []
  | p :: rest => ⟨listId, synthNameOf p, p.md5, i⟩ :: pilRowsFrom listId (i + 1) rest

/-- `PatchDataBaseImpl::putPatchList`: update or insert the `lists` row;
when the id already exists, delete every previous `patch_in_list` row of
the id; then insert the list's patches with order numbers 0..n-1.  The
`patch_in_list` table has an enforced foreign key to `patches`
(`PRAGMA foreign_keys = ON`), so the insert loop stops at the first
member without a patch row; with a transaction the whole operation then
rolls back (the exception skips the commit), without one the partial
writes remain. -/
def putPatchList (withTx : Bool) (db : DbState) (L : StoredListM) : DbState :=
  let alreadyThere := db.lists.any (fun l => decide (l.id = L.id))
  let updatedLists :=
    if alreadyThere then
      db.lists.map (fun l =>
        if decide (l.id = L.id) then
          match L.kind with
          | .bankKind _ _ ls u =>
            { l with name := L.name, lastSynced := some (ls.getD 0), listType := if u then 2 else 1 }
          | .importKind _ => { l with name := L.name, listType := 3 }
          | .normalKind => { l with name := L.name, listType := 0 }
        else l)
    else db.lists ++ [newListRow L]
  let pil0 := if alreadyThere then db.pil.filter (fun r => !decide (r.id = L.id)) else db.pil
  let insertable := L.patches.takeWhile (fun p => rowExistsB db (synthNameOf p) p.md5)
  let allOk := L.patches.all (fun p => rowExistsB db (synthNameOf p) p.md5)
  if withTx && !allOk then db
  else
    { db with
      lists := updatedLists
      pil := pil0 ++ pilRowsFrom L.id 0 insertable }

/-- `PatchDataBaseImpl::deletePatches(PatchFilter)`, with the compiled
row-local WHERE clause abstracted as the predicate `m` on a `patches`
row.  Four sequential statements inside one transaction:
1. delete the `patch_in_list` rows of matching patches that sit in a
   plain list (`lists.synth IS NULL`);
2. set `hidden = 1` on matching patches still referenced (after step 1)
   through a list with `lists.synth IS NOT NULL`;
3. delete the matching patches with no remaining `patch_in_list` row
   (LEFT JOIN, `patch_in_list.id IS NULL`), the match re-evaluated on the
   possibly-just-hidden row;
4. sweep every `patch_in_list` row whose patch no longer exists. -/
def delStep1 (m : PatchRow → Bool) (db : DbState) : List PilRow :=
  db.pil.filter (fun r =>
    !(db.patches.any (fun p => m p && decide (p.md5 = r.md5) && decide (p.synth = r.synth)) &&
      db.lists.any (fun l => decide (l.id = r.id) && decide (l.synth = none))))

def delShouldHide (m : PatchRow → Bool) (db : DbState) (pil1 : List PilRow)
    (p : PatchRow) : Bool :=
  m p && pil1.any (fun r => decide (r.md5 = p.md5) && decide (r.synth = p.synth) &&
    db.lists.any (fun l => decide (l.id = r.id) && !decide (l.synth = none)))

def delPatches2 (m : PatchRow → Bool) (db : DbState) (pil1 : List PilRow) : List PatchRow :=
  db.patches.map (fun p => if delShouldHide m db pil1 p then { p with hidden := 1 } else p)

def delPatches3 (m : PatchRow → Bool) (pil1 : List PilRow) (patches2 : List PatchRow) :
    List PatchRow :=
  patches2.filter (fun p =>
    !(m p && !(pil1.any (fun r => decide (r.md5 = p.md5) && decide (r.synth = p.synth)))))

def deletePatchesFilter (m : PatchRow → Bool) (db : DbState) : DbState :=
  let pil1 := delStep1 m db
  let patches3 := delPatches3 m pil1 (delPatches2 m db pil1)
  let pil2 := pil1.filter (fun r =>
    patches3.any (fun p => decide (p.md5 = r.md5) && decide (p.synth = r.synth)))
  { patches := patches3, lists := db.lists, pil := pil2 }

/-! ## Filter algebra and queries
(`buildWhereClause`, `buildJoinClause`, `buildOrderClause`,
`getPatchesCount`, `getPatches`) -/

/-- `PatchOrdering` as used by `PatchDatabase.cpp`. -/
inductive OrderingM where
  | noOrdering
  | byName
  | byImportId
  | byPlaceInList
  | byProgramNo
  | byBankNo
deriving DecidableEq, Repr

/-- `PatchFilter` with the fields `buildWhereClause`/`buildJoinClause`
consume; the synth selection is the list of synth names (map keys), the
category set is given by its bit indexes. -/
structure PatchFilterM where
  synths : List String
  name : String := ""
  listID : String := ""
  onlySpecifcType : Bool := false
  typeID : Nat := 0
  onlyFaves : Bool := false
  showHidden : Bool := false
  showRegular : Bool := false
  showUndecided : Bool := false
  onlyUntagged : Bool := false
  categories : List Nat := []
  andCategories : Bool := false
  onlyDuplicateNames : Bool := false
  orderBy : OrderingM := .noOrdering
deriving DecidableEq, Repr

/-- The bound `:CAT` value: OR of `1 << bit` over the filter's category
set. -/
def catMask (l : List Nat) : Nat := l.foldl (fun acc b => acc ||| (1 <<< b)) 0

/-- Does the first character list start with the second? -/
def leadsWith : List Char → List Char → Bool
  | _, [] => true
  | [], _ :: _ => false
  | a :: as, b :: bs => decide (a = b) && leadsWith as bs

/-- Contiguous-subsequence test on character lists. -/
def containsSeq : List Char → List Char → Bool
  | [], pat => pat.isEmpty
  | a :: as, pat => leadsWith (a :: as) pat || containsSeq as pat

/-- SQL `LIKE '%name%'` on a column: case-insensitive (ASCII) substring
match.  (`COLLATE NOCASE` in the row query does not change the semantics
of LIKE, which is ASCII-case-insensitive either way, so the count query
and the row query agree on this clause.) -/
def likeMatch (pat s : String) : Bool := containsSeq s.toLower.toList pat.toLower.toList

/-- The visibility block of `buildWhereClause`: the positive filters of
the selected flags are OR-combined, the negative filters of the
unselected flags are AND-combined, and with no flag selected the clause
is `hidden = 0`. -/
def visibilityWhere (f : PatchFilterM) (p : PatchRow) : Bool :=
  let hiddenFalse := decide (p.hidden = 0)
  let hiddenTrue := !decide (p.hidden = 0)
  let favoriteTrue := decide (p.favorite = 1)
  let favoriteFalse := !decide (p.favorite = 1)
  let regularTrue := decide (p.regular = some 1)
  let regularFalse := decide (p.regular = none) || !decide (p.regular = some 1)
  let undecidedTrue := hiddenFalse && favoriteFalse && regularFalse
  if f.onlyFaves || f.showHidden || f.showRegular || f.showUndecided then
    let pos := (f.onlyFaves && favoriteTrue) || (f.showHidden && hiddenTrue) ||
               (f.showRegular && regularTrue) || (f.showUndecided && undecidedTrue)
    let negs : List Bool :=
      (if !f.onlyFaves then [favoriteFalse] else []) ++
      (if !f.showHidden then [hiddenFalse] else []) ++
      (if !f.showRegular then [regularFalse] else [])
    pos && negs.all id
  else hiddenFalse

/-- The `patches_count` CTE value for a row: how many patches of the same
synth share its name (the CTE groups all patches by `(synth, name)`, so
the INNER JOIN on it neither drops nor duplicates rows and its `count`
column can be computed in place). -/
def dupNameCount (allPatches : List PatchRow) (p : PatchRow) : Nat :=
  allPatches.countP (fun q => decide (q.synth = p.synth) && decide (q.name = p.name))

/-- `buildWhereClause` as a predicate on a joined row (`p` plus the
INNER-joined `patch_in_list` row when the filter has a list id): base
`1 == 1`, synth OR-clause, LIKE over name/comment/author/info, list id,
type, the visibility block, untagged/category bitmask tests, and the
duplicate-name count. -/
def evalWhere (f : PatchFilterM) (allPatches : List PatchRow) (p : PatchRow)
    (pilRow : Option PilRow) : Bool :=
  (decide (f.synths = []) || f.synths.any (fun s => decide (p.synth = s))) &&
  (decide (f.name = "") ||
    (likeMatch f.name p.name || likeMatch f.name p.comment ||
     likeMatch f.name p.author || likeMatch f.name p.info)) &&
  (decide (f.listID = "") ||
    (match pilRow with
     | some r => decide (r.id = f.listID)
     | none => false)) &&
  (!f.onlySpecifcType || decide (p.type = f.typeID)) &&
  visibilityWhere f p &&
  (if f.onlyUntagged then decide (p.categories = 0)
   else if !decide (f.categories = []) then
     (if f.andCategories then decide (p.categories &&& catMask f.categories = catMask f.categories)
      else !decide (p.categories &&& catMask f.categories = 0))
   else true) &&
  (!f.onlyDuplicateNames || decide (dupNameCount allPatches p > 1))

/-- The FROM/JOIN of the count query (`buildJoinClause(filter)`):
`patches`, INNER-joined with `patch_in_list` exactly when the filter
carries a list id. -/
def baseJoin (f : PatchFilterM) (db : DbState) : List (PatchRow × Option PilRow) :=
  if f.listID = "" then db.patches.map (fun p => (p, none))
  else db.patches.flatMap (fun p =>
    (db.pil.filter (fun r => decide (r.md5 = p.md5) && decide (r.synth = p.synth))).map
      (fun r => (p, some r)))

/-- `PatchDataBaseImpl::getPatchesCount`: `SELECT count(*)` over the
joined rows passing the WHERE clause. -/
def getPatchesCountM (f : PatchFilterM) (db : DbState) : Nat :=
  ((baseJoin f db).filter (fun pq => evalWhere f db.patches pq.1 pq.2)).length

/-- The `import_pil` subquery of the import-ordering join: the
`patch_in_list` rows joined with their import-typed list (same id, same
synth), each carrying the import list's name.  (`lists.id` is the
primary key, so at most one list row joins.) -/
def importPil (db : DbState) : List (PilRow × String) :=
  db.pil.filterMap (fun r =>
    match db.lists.find? (fun l =>
        decide (l.id = r.id) && decide (l.synth = some r.synth) && decide (l.listType = 3)) with
    | some l => some (r, l.name)
    | none => none)

/-- A row of the row query's FROM clause: the patches row, the optional
list-filter join and the optional LEFT-joined `import_pil` row. -/
def JoinedRow := PatchRow × Option PilRow × Option (PilRow × String)

/-- The FROM/JOIN of the row query
(`buildJoinClause(filter, false, needsImportOrdering)`): the base join,
LEFT-joined with `import_pil` exactly when ordering by import id (a
patch in several import lists yields several rows; a patch in none
yields one row with NULLs). -/
def getPatchesJoin (f : PatchFilterM) (db : DbState) : List JoinedRow :=
  (baseJoin f db).flatMap (fun pq =>
    if f.orderBy = .byImportId then
      match (importPil db).filter (fun rl =>
          decide (rl.1.md5 = pq.1.md5) && decide (rl.1.synth = pq.1.synth)) with
      | [] => [(pq.1, pq.2, none)]
      | ms => ms.map (fun rl => (pq.1, pq.2, some rl))
    else [(pq.1, pq.2, none)])

/-- NULLs-first comparison of nullable numeric columns. -/
def cmpOptNat : Option Nat → Option Nat → Ordering
  | none, none => .eq
  | none, some _ => .lt
  | some _, none => .gt
  | some a, some b => compare a b

/-- NULLs-first comparison of nullable text columns. -/
def cmpOptStr : Option String → Option String → Ordering
  | none, none => .eq
  | none, some _ => .lt
  | some _, none => .gt
  | some a, some b => compare a b

/-- The sort key comparison of `buildOrderClause` for each ordering. -/
def orderCmp (f : PatchFilterM) (a b : JoinedRow) : Ordering :=
  match f.orderBy with
  | .noOrdering => .eq
  | .byImportId =>
    (compare a.2.2.isNone b.2.2.isNone).then
      ((cmpOptStr (a.2.2.map (·.2)) (b.2.2.map (·.2))).then
        ((cmpOptNat (a.2.2.map (·.1.orderNum)) (b.2.2.map (·.1.orderNum))).then
          ((cmpOptNat a.1.midiBankNo b.1.midiBankNo).then
            (compare a.1.midiProgramNo b.1.midiProgramNo))))
  | .byName =>
    (compare a.1.name b.1.name).then
      ((cmpOptNat a.1.midiBankNo b.1.midiBankNo).then
        (compare a.1.midiProgramNo b.1.midiProgramNo))
  | .byPlaceInList => cmpOptNat (a.2.1.map (·.orderNum)) (b.2.1.map (·.orderNum))
  | .byProgramNo => (compare a.1.midiProgramNo b.1.midiProgramNo).then (compare a.1.name b.1.name)
  | .byBankNo =>
    (cmpOptNat a.1.midiBankNo b.1.midiBankNo).then
      ((compare a.1.midiProgramNo b.1.midiProgramNo).then (compare a.1.name b.1.name))

/-- Insert into a sorted list (the elementary step of the ORDER BY
sort). -/
def ordInsertB {α : Type} (le : α → α → Bool) (x : α) : List α → List α
  | [] => [x]
  | y :: ys => if le x y then x :: y :: ys else y :: ordInsertB le x ys

/-- Sorting a query result (the ORDER BY clause; a permutation of the
rows). -/
def sortByB {α : Type} (le : α → α → Bool) : List α → List α
  | [] => []
  | x :: xs => ordInsertB le x (sortByB le xs)

/-- Apply `buildOrderClause`: no ordering leaves the engine order, any
other ordering sorts by its key. -/
def orderRows (f : PatchFilterM) (rows : List JoinedRow) : List JoinedRow :=
  match f.orderBy with
  | .noOrdering => rows
  | _ => sortByB (fun a b => !decide (orderCmp f a b = .gt)) rows

/-- `PatchDataBaseImpl::getPatches` with `skip = 0` and `limit = -1` (no
LIMIT/OFFSET): run the row query, order it, skip every returned row
whose synth is not in the filter's synth map, and rebuild a holder from
each remaining row. -/
def getPatchesM (bankSizeOf : String → Nat → Nat) (bits : List (String × Nat))
    (f : PatchFilterM) (db : DbState) : List PatchHolderM :=
  let rows := (getPatchesJoin f db).filter (fun r => evalWhere f db.patches r.1 r.2.1)
  let sorted := orderRows f rows
  let kept := sorted.filter (fun r => f.synths.contains r.1.synth)
  kept.map (fun r => loadHolderFromRow bankSizeOf bits r.1)

/-! ## Merge and import lists
(`bulkGetPatches`, `mergePatchesIntoDatabase`,
`sortPatchesIntoImportLists`) -/

instance : Inhabited PatchHolderM := ⟨{ synth := none, patch := none }⟩

/-- `bulkGetPatches`: the md5 keys of the incoming patches that already
have a row under their own synth (the resulting map is keyed by md5
alone). -/
def knownMd5s (db : DbState) (ps : List PatchHolderM) : List (List Nat) :=
  ps.filterMap (fun ph =>
    if rowExistsB db (synthNameOf ph) ph.md5 then some ph.md5 else none)

/-- The update of one known incoming patch in the merge loop: load the
existing row (`getSinglePatch`; when the row is missing under this
synth - possible when the md5 was known through another synth - nothing
happens), then `updatePatch` with `UPDATE_ALL`, minus the name when the
incoming name is a default name (`hasDefaultName`, the adapter's
`DefaultNameCapability` supplied as `isDefault`). -/
def updateKnownPatch (bits : List (String × Nat)) (isDefault : PatchHolderM → Bool)
    (db : DbState) (ph : PatchHolderM) : DbState :=
  if rowExistsB db (synthNameOf ph) ph.md5 then
    { db with patches := db.patches.map (fun row =>
        if decide (row.synth = synthNameOf ph) && decide (row.md5 = ph.md5) then
          mergeRowWithIncoming bits ph row (!isDefault ph)
        else row) }
  else db

/-- The insert loop of `mergePatchesIntoDatabase` over the new patches:
insert each patch not yet inserted in this batch (`md5Inserted`, keyed by
md5); a batch-duplicate only replaces the already-inserted row's name
when the duplicate's name was a default one and the new name is not. -/
def insertLoop (bits : List (String × Nat)) (isDefault : PatchHolderM → Bool) :
    DbState → List (List Nat × PatchHolderM) → List PatchHolderM → DbState
  | db, _, [] => db
  | db, seen, ph :: rest =>
    match seen.find? (fun e => decide (e.1 = ph.md5)) with
    | some dup =>
      let db' :=
        if isDefault dup.2 && !isDefault ph then
          { db with patches := db.patches.map (fun row =>
              if decide (row.synth = synthNameOf dup.2) && decide (row.md5 = ph.md5) then
                { row with name := ph.name }
              else row) }
        else db
      insertLoop bits isDefault db' seen rest
    | none =>
      insertLoop bits isDefault { db with patches := db.patches ++ [putPatchRow bits ph] }
        (seen ++ [(ph.md5, ph)]) rest

/-- `PatchDataBaseImpl::mergePatchesIntoDatabase`: bulk-fetch the known
md5s, update each known incoming patch, collect the unknown ones as
`outNewPatches`, then insert those (deduplicated by md5 within the
batch).  Returns the new state and `outNewPatches`. -/
def mergeIntoDatabase (bits : List (String × Nat)) (isDefault : PatchHolderM → Bool)
    (db : DbState) (ps : List PatchHolderM) : DbState × List PatchHolderM :=
  let known := knownMd5s db ps
  let db1 := ps.foldl (fun acc ph =>
    if known.contains ph.md5 then updateKnownPatch bits isDefault acc ph else acc) db
  let outNew := ps.filter (fun ph => !known.contains ph.md5)
  (insertLoop bits isDefault db1 [] outNew, outNew)

/-- The import-list cache key of a non-edit-buffer import
(`synthScopedImportId(synth, sourceInfo->md5(synth))`); `none` when the
patch has no source info or is an edit-buffer import. -/
def fileKeyOf (ph : PatchHolderM) : Option String :=
  match ph.sourceInfo with
  | none => none
  | some si =>
    if SourceInfoM.isEditBufferImport (some si) then none
    else some ("import:" ++ synthNameOf ph ++ ":" ++ si.md5)

/-- The cache key of an edit-buffer import
(`synthScopedImportId(synth, "EditBufferImport")`). -/
def editKeyOf (ph : PatchHolderM) : Option String :=
  match ph.sourceInfo with
  | none => none
  | some si =>
    if SourceInfoM.isEditBufferImport (some si) then
      some ("import:" ++ synthNameOf ph ++ ":EditBufferImport")
    else none

/-- Append an element to its keyed group (first-touch group order). -/
def addToGroups {α : Type} (k : String) (x : α) :
    List (String × List α) → List (String × List α)
  | [] => [(k, [x])]
  | (k', ys) :: rest =>
    if k' = k then (k', ys ++ [x]) :: rest else (k', ys) :: addToGroups k x rest

/-- Group a batch by cache key, dropping elements without a key. -/
def groupByKey {α : Type} (keyOf : α → Option String) (xs : List α) :
    List (String × List α) :=
  xs.foldl (fun gs x =>
    match keyOf x with
    | none => gs
    | some k => addToGroups k x gs) []

/-- `ensureImportList`'s load from the database (`getPatchList` with a
one-synth map): the stored list is reused only when its row has the
dynamic import type and exactly this synth (any other stored type or synth makes
the `ImportList` cast or the synth lookup fail and the list is recreated
fresh); its patches are the resolvable `patch_in_list` rows of the id, in
order. -/
def loadImportList (bankSizeOf : String → Nat → Nat) (bits : List (String × Nat))
    (db : DbState) (listId synth listName : String) : StoredListM :=
  match db.lists.find? (fun l => decide (l.id = listId)) with
  | some l =>
    if decide (l.listType = 3) && decide (l.synth = some synth) then
      let rows := sortByB (fun a b => decide (a.orderNum ≤ b.orderNum))
        (db.pil.filter (fun r => decide (r.id = listId)))
      let holders := rows.filterMap (fun r =>
        if decide (r.synth = synth) then
          match db.patches.find? (fun p =>
              decide (p.synth = r.synth) && decide (p.md5 = r.md5)) with
          | some row => some (loadHolderFromRow bankSizeOf bits row)
          | none => none
        else none)
      { id := listId, name := l.name, kind := .importKind synth, patches := holders }
    else { id := listId, name := listName, kind := .importKind synth, patches := [] }
  | none => { id := listId, name := listName, kind := .importKind synth, patches := [] }

/-- One cached import list after the grouping pass: the list loaded (or
freshly created) at the first touch of the key, with every group member
appended through `addPatch`.  The synth and the display name come from
the first member that touched the key. -/
def mkStoredGroup (bankSizeOf : String → Nat → Nat) (bits : List (String × Nat))
    (db : DbState) (editBuffer : Bool) (k : String) (ms : List PatchHolderM) : StoredListM :=
  let ph0 := ms.headD default
  let synth := synthNameOf ph0
  let listName :=
    if editBuffer then "Edit buffer imports"
    else (ph0.sourceInfo.getD (.fromBulk 0 none)).displayString
  let base := loadImportList bankSizeOf bits db k synth listName
  { base with patches := base.patches ++ ms }

/-- `PatchDataBaseImpl::sortPatchesIntoImportLists`: group the batch into
per-source import lists and per-synth edit-buffer lists (each list loaded
from the unchanged database at its first touch, then grown by
`addPatch`), then store the file-import lists followed by the edit-buffer
lists through `putPatchList` without a nested transaction.  (The C++
caches iterate in key order; the store order affects only row placement,
never the contents.) -/
def sortPatchesIntoImportListsM (bankSizeOf : String → Nat → Nat) (bits : List (String × Nat))
    (db : DbState) (ps : List PatchHolderM) : DbState :=
  let fileGroups := (groupByKey fileKeyOf ps).map
    (fun km => mkStoredGroup bankSizeOf bits db false km.1 km.2)
  let editGroups := (groupByKey editKeyOf ps).map
    (fun km => mkStoredGroup bankSizeOf bits db true km.1 km.2)
  (fileGroups ++ editGroups).foldl (fun acc L => putPatchList false acc L) db

/-- The in-memory lists `sortPatchesIntoImportLists` stores, in store
order: the per-source file-import lists followed by the per-synth
edit-buffer lists, each built against the unchanged pre-store catalog
`db`. -/
def importGroupLists (bankSizeOf : String → Nat → Nat) (bits : List (String × Nat))
    (db : DbState) (ps : List PatchHolderM) : List StoredListM :=
  (groupByKey fileKeyOf ps).map (fun km => mkStoredGroup bankSizeOf bits db false km.1 km.2) ++
  (groupByKey editKeyOf ps).map (fun km => mkStoredGroup bankSizeOf bits db true km.1 km.2)

/-- The import pipeline a merge runs end to end:
`PatchDatabase::mergePatchesIntoDatabase` on the batch followed by
`PatchDatabase::createImportLists` (= `sortPatchesIntoImportLists`) on
the same batch. -/
def mergeAndCreateImportLists (bankSizeOf : String → Nat → Nat) (bits : List (String × Nat))
    (isDefault : PatchHolderM → Bool) (db : DbState) (ps : List PatchHolderM) : DbState :=
  sortPatchesIntoImportListsM bankSizeOf bits (mergeIntoDatabase bits isDefault db ps).1 ps

/-- The empty catalog. -/
def emptyDb : DbState := { patches := [], lists := [], pil := [] }

/-- Every row keeps its data equal to its md5 column (putPatch writes the
fingerprint bytes as both). -/
def WellFormedRows (db : DbState) : Prop := ∀ r ∈ db.patches, r.data = r.md5

/-! ## Concrete fixtures used by witnesses and counterexamples -/

/-- A holder of synth S with payload [1]. -/
def holderA : PatchHolderM := { synth := some "S", patch := some [1], name := "Original" }

/-- A holder of synth S with payload [2]. -/
def holderB : PatchHolderM := { synth := some "S", patch := some [2], name := "Second" }

/-- A holder of synth S sharing holderA's payload (same fingerprint). -/
def holderRepl : PatchHolderM := { synth := some "S", patch := some [1], name := "Replacement" }

/-- A holder of another synth sharing holderA's payload. -/
def holderForeign : PatchHolderM := { synth := some "T", patch := some [1], name := "Foreign" }

/-- A three-slot bank of synth S. -/
def bankS : SynthBankM := { synthName := "S", bankNo := ⟨0, 3⟩ }

/-- A catalog with two patch rows, one normal list and one membership
row. -/
def dbC10 : DbState :=
  { patches := [putPatchRow [] holderA, putPatchRow [] holderB],
    lists := [{ id := "L1", name := "old", synth := none, midiBankNumber := none,
                lastSynced := none, listType := 0 }],
    pil := [{ id := "L1", synth := "S", md5 := [1], orderNum := 0 }] }

/-- The in-memory list overwriting `L1` with a single different entry. -/
def listC10 : StoredListM := { id := "L1", name := "new", kind := .normalKind, patches := [holderB] }

/-- A holder of synth TS with a file source. -/
def holderTS : PatchHolderM :=
  { synth := some "TS", patch := some [1, 2], name := "P",
    sourceInfo := some (.fromFile "a.syx" "/a.syx" 0) }

/-- An import list row (synth-bound, not a bank: `midi_bank_number` is
NULL and `list_type` is 3). -/
def importListRow : ListRow :=
  { id := "L", name := "imp", synth := some "TS", midiBankNumber := none,
    lastSynced := some 0, listType := 3 }

/-- A catalog whose only patch is referenced by an import list and by no
bank list. -/
def dbImportOnly : DbState :=
  { patches := [putPatchRow [] holderTS],
    lists := [importListRow],
    pil := [{ id := "L", synth := "TS", md5 := [1, 2], orderNum := 0 }] }

/-- The test synth of the interchange-format tests: each sysex message
round-trips to one patch of the same bytes. -/
def testSynthPif : SynthPif :=
  { name := "TestSynth", bankSize := 32,
    dataFileToSysex := fun d => [d], loadSysex := fun msgs => msgs }

/-- A detector knowing the categories Pad and SFX, with no automatic
rules. -/
def testDetector : DetectorM := { categoryNames := ["Pad", "SFX"], detect := fun _ => [] }

/-- The patch holder of test scenario E1: favorite, bank 3 program 42,
user-decided category Pad, user decision on absent SFX, comment, author
and info set. -/
def holderE1 : PatchHolderM :=
  { synth := some "TestSynth", patch := some [240, 125, 1, 2, 3, 247],
    name := "Bright Pad", favorite := .yes,
    bank := some ⟨3, 32⟩, program := .withBank ⟨3, 32⟩ 42,
    categories := ["Pad"], userDecisions := ["Pad", "SFX"],
    comment := "Very shiny", author := "Unit Tester", info := "Created for tests",
    sourceInfo := some (.fromFile "input.syx" "/tmp/input.syx" 4) }

/-- The file source a PIF load attaches to entries without source info. -/
def pifFileSource : SourceInfoM := .fromFile "pif.json" "/tmp/pif.json" 0

/-- The program-dump capability of the loadSysex witness synth: every
message is part of a program dump, any single message is a complete one,
decoding yields the message itself. -/
def witnessProgCaps : ProgCapsM :=
  { isMessagePartOfProgramDump := fun _ => true,
    isSingleProgramDump := fun l => decide (l.length = 1),
    patchFromProgramDumpSysex := fun l => l.head? }

/-- The edit-buffer capability of the loadSysex witness synth: decoding a
single message m yields patch m + 10 (which fingerprints like patch m). -/
def witnessEditCaps : EditCapsM :=
  { isMessagePartOfEditBuffer := fun _ => true,
    isEditBufferDump := fun l => decide (l.length = 1),
    patchFromSysex := fun l => (l.head?).map (· + 10) }

/-- A synth with program-dump and edit-buffer capabilities whose
fingerprint identifies patches modulo 10 (so each edit-buffer patch
duplicates the corresponding program dump). -/
def witnessSynthLoad : SynthLoadM :=
  { stream := none,
    programDump := some witnessProgCaps,
    editBuffer := some witnessEditCaps,
    bankDump := none,
    dataFile := none,
    fingerprint := fun p => toString (p % 10),
    maxMsgsPerPatch := 14,
    maxMsgsPerBank := 256 }

/-! # Theorems -/

/-! ### Helper lemmas -/

theorem length_renumberFrom (bank : SynthBankM) (i : Nat) (xs : List PatchHolderM) :
    (renumberFrom bank i xs).length = xs.length := by
  induction xs generalizing i with
  | nil => rfl
  | cons p rest ih => simp [renumberFrom, ih]

theorem getElem?_renumberFrom (bank : SynthBankM) (i k : Nat) (xs : List PatchHolderM) :
    (renumberFrom bank i xs)[k]? =
      (xs[k]?).map (fun p =>
        { p with bank := some bank.bankNo, program := .withBank bank.bankNo (i + k) }) := by
  induction xs generalizing i k with
  | nil => simp [renumberFrom]
  | cons p rest ih =>
    cases k with
    | zero => simp [renumberFrom]
    | succ k' =>
      simp only [renumberFrom, List.getElem?_cons_succ, ih (i + 1) k']
      have : i + 1 + k' = i + (k' + 1) := by omega
      rw [this]

theorem length_fillSlots (bank : SynthBankM) (j n : Nat) :
    (fillSlots bank j n).length = n := by
  induction n generalizing j with
  | zero => rfl
  | succ n' ih => simp [fillSlots, ih]

theorem getElem?_fillSlots (bank : SynthBankM) (j n k : Nat) (h : k < n) :
    (fillSlots bank j n)[k]? = some (emptySlotHolder bank (j + k)) := by
  induction n generalizing j k with
  | zero => omega
  | succ n' ih =>
    cases k with
    | zero => simp [fillSlots]
    | succ k' =>
      simp only [fillSlots, List.getElem?_cons_succ]
      rw [ih (j + 1) k' (by omega)]
      have : j + 1 + k' = j + (k' + 1) := by omega
      rw [this]

theorem validate_renumbered (bank : SynthBankM) (p : PatchHolderM)
    (hp : p.synth = some bank.synthName) (i : Nat) :
    validatePatchInfo bank
      { p with bank := some bank.bankNo, program := .withBank bank.bankNo i } = true := by
  simp [validatePatchInfo, hp, ProgramNo.isBankKnown, ProgramNo.bankNum]

theorem validate_emptySlot (bank : SynthBankM) (j : Nat) :
    validatePatchInfo bank (emptySlotHolder bank j) = true := by
  simp [validatePatchInfo, emptySlotHolder, ProgramNo.isBankKnown, ProgramNo.bankNum]

theorem all_validate_setPatches (bank : SynthBankM) (xs : List PatchHolderM)
    (hsyn : ∀ p ∈ xs, p.synth = some bank.synthName) :
    (renumberFrom bank 0 xs ++ fillSlots bank xs.length (bank.bankNo.size - xs.length)).all
      (validatePatchInfo bank) = true := by
  rw [List.all_append, Bool.and_eq_true]
  refine ⟨?_, ?_⟩
  · rw [List.all_eq_true]
    intro q hq
    have : ∀ i, ∀ ys : List PatchHolderM, (∀ p ∈ ys, p.synth = some bank.synthName) →
        q ∈ renumberFrom bank i ys → validatePatchInfo bank q = true := by
      intro i ys
      induction ys generalizing i with
      | nil => intro _ h; simp [renumberFrom] at h
      | cons p rest ih =>
        intro hys hmem
        simp only [renumberFrom, List.mem_cons] at hmem
        rcases hmem with rfl | hmem
        · exact validate_renumbered bank p (hys p (List.mem_cons_self p rest)) i
        · exact ih (i + 1) (fun r hr => hys r (List.mem_cons_of_mem p hr)) hmem
    exact this 0 xs hsyn hq
  · rw [List.all_eq_true]
    intro q hq
    have : ∀ j n, q ∈ fillSlots bank j n → validatePatchInfo bank q = true := by
      intro j n
      induction n generalizing j with
      | zero => intro h; simp [fillSlots] at h
      | succ n' ih =>
        intro hmem
        simp only [fillSlots, List.mem_cons] at hmem
        rcases hmem with rfl | hmem
        · exact validate_emptySlot bank j
        · exact ih (j + 1) hmem
    exact this xs.length (bank.bankNo.size - xs.length) hq

/-! ### C5 — bank normalization -/

/-- C5: for every list `xs` of patch holders of the bank's synth with
`len(xs) ≤ bank_size`, after `SynthBank::setPatches(xs)` the stored list
has length exactly `bank_size`; positions `0..len(xs)-1` carry the
elements of `xs` renumbered with program numbers `0..len(xs)-1` and the
bank's bank number, and every later position carries a holder with a
null patch. -/
theorem c5_bank_normalization (bank : SynthBankM) (xs : List PatchHolderM)
    (hlen : xs.length ≤ bank.bankNo.size)
    (hsyn : ∀ p ∈ xs, p.synth = some bank.synthName) :
    ((SynthBank.setPatches bank xs).patches.length = bank.bankNo.size) ∧
    (∀ i, i < xs.length →
      ((SynthBank.setPatches bank xs).patches)[i]? =
        (xs[i]?).map (fun p =>
          { p with bank := some bank.bankNo, program := .withBank bank.bankNo i })) ∧
    (∀ j, xs.length ≤ j → j < bank.bankNo.size →
      (((SynthBank.setPatches bank xs).patches)[j]?).map PatchHolderM.patch = some none) := by
  have hcommit : (SynthBank.setPatches bank xs).patches =
      renumberFrom bank 0 xs ++ fillSlots bank xs.length (bank.bankNo.size - xs.length) := by
    unfold SynthBank.setPatches
    rw [if_pos (all_validate_setPatches bank xs hsyn)]
  rw [hcommit]
  refine ⟨?_, ?_, ?_⟩
  · rw [List.length_append, length_renumberFrom, length_fillSlots]
    omega
  · intro i hi
    rw [List.getElem?_append_left (by rw [length_renumberFrom]; exact hi)]
    rw [getElem?_renumberFrom]
    simp
  · intro j hj1 hj2
    rw [List.getElem?_append_right (by rw [length_renumberFrom]; exact hj1)]
    rw [length_renumberFrom]
    rw [getElem?_fillSlots bank xs.length (bank.bankNo.size - xs.length) (j - xs.length) (by omega)]
    simp [emptySlotHolder]

/-- C5 witness: a two-patch list in bankS (size 3) yields three slots,
the two patches renumbered to programs 0 and 1 and the last slot empty. -/
theorem c5_bank_normalization_witness :
    (holderA :: [holderB]).length ≤ bankS.bankNo.size ∧
    ((SynthBank.setPatches bankS [holderA, holderB]).patches.length = bankS.bankNo.size) := by
  have h := c5_bank_normalization bankS [holderA, holderB] (by decide) (by decide)
  exact ⟨by decide, h.1⟩

/-! ### C6 — duplicate replacement -/

/-- C6: after `insertPatchAtTopAndRemoveDuplicates(p)` the list contains
exactly one entry whose (synth, fingerprint) pair equals that of `p`, it
sits at index 0, and entries with the same fingerprint but a different
synth are retained. -/
theorem c6_duplicate_replacement (patches : List PatchHolderM) (p : PatchHolderM) :
    ((insertPatchAtTopAndRemoveDuplicates patches p).countP
       (fun e => decide (e.synth = p.synth) && decide (e.md5 = p.md5)) = 1) ∧
    ((insertPatchAtTopAndRemoveDuplicates patches p).head? = some p) ∧
    (∀ q ∈ patches, q.md5 = p.md5 → q.synth ≠ p.synth →
       q ∈ insertPatchAtTopAndRemoveDuplicates patches p) := by
  refine ⟨?_, rfl, ?_⟩
  · unfold insertPatchAtTopAndRemoveDuplicates
    rw [List.countP_cons_of_pos _ _ (by simp)]
    have hz : (patches.filter
        (fun e => !(decide (e.synth = p.synth) && decide (e.md5 = p.md5)))).countP
        (fun e => decide (e.synth = p.synth) && decide (e.md5 = p.md5)) = 0 := by
      rw [List.countP_eq_zero]
      intro q hq
      have h2 := (List.mem_filter.mp hq).2
      simp only [Bool.not_eq_true', Bool.and_eq_false_iff, decide_eq_false_iff_not] at h2
      simp only [Bool.and_eq_true, decide_eq_true_eq]
      rintro ⟨h3, h4⟩
      rcases h2 with h2 | h2 <;> exact absurd (by assumption) h2
    omega
  · intro q hq hmd5 hsyn
    unfold insertPatchAtTopAndRemoveDuplicates
    refine List.mem_cons_of_mem p (List.mem_filter.mpr ⟨hq, ?_⟩)
    simp [hsyn, hmd5]

/-- C6 witness: replacing a same-synth duplicate keeps one copy at the
top; a foreign-synth holder with the same bytes is retained. -/
theorem c6_duplicate_replacement_witness :
    holderA.md5 = holderRepl.md5 ∧
    insertPatchAtTopAndRemoveDuplicates [holderA] holderRepl = [holderRepl] ∧
    insertPatchAtTopAndRemoveDuplicates [holderForeign, holderA] holderRepl =
      [holderRepl, holderForeign] ∧
    ((insertPatchAtTopAndRemoveDuplicates [holderA] holderRepl).countP
       (fun e => decide (e.synth = holderRepl.synth) && decide (e.md5 = holderRepl.md5)) = 1) := by
  refine ⟨by decide, by decide, by decide, (c6_duplicate_replacement [holderA] holderRepl).1⟩

/-! ### C8 — auto-detection picks the last location -/

/-- C8: when discovery returns more than one `(input, output, channel)`
triple, `findSynth` selects the triple at index `size - 1` — the last
one, never the first — applies it to the synth as its current location,
and persists it to the settings. -/
theorem c8_last_location_selected (synth : DiscoverableM) (settings : List (String × String))
    (locations : List LocationM) (h : 1 < locations.length) :
    ∃ chosen : LocationM,
      locations.getLast? = some chosen ∧
      locations[locations.length - 1]? = some chosen ∧
      locations.length - 1 ≠ 0 ∧
      (findSynthSelect synth settings locations).1 =
        { synth with input := chosen.input, output := chosen.output,
                     channel := some chosen.channel } ∧
      (findSynthSelect synth settings locations).2 =
        persistSetting settings ((findSynthSelect synth settings locations).1) := by
  have hne : locations ≠ [] := by
    intro hnil
    rw [hnil] at h
    simp at h
  obtain ⟨chosen, hc⟩ := Option.isSome_iff_exists.mp (List.getLast?_isSome.mpr hne)
  refine ⟨chosen, hc, ?_, by omega, ?_, ?_⟩
  · rw [← List.getLast?_eq_getElem?]
    exact hc
  · unfold findSynthSelect
    rw [hc]
  · unfold findSynthSelect
    rw [hc]

/-- C8 witness: two locations; the second (index 1, not index 0) is
selected and persisted. -/
theorem c8_last_location_selected_witness :
    1 < ([⟨"inA", "outA", 0⟩, ⟨"inB", "outB", 5⟩] : List LocationM).length ∧
    ∃ chosen : LocationM,
      ([⟨"inA", "outA", 0⟩, ⟨"inB", "outB", 5⟩] : List LocationM).getLast? = some chosen ∧
      ([⟨"inA", "outA", 0⟩, ⟨"inB", "outB", 5⟩] : List LocationM)[([⟨"inA", "outA", 0⟩,
        ⟨"inB", "outB", 5⟩] : List LocationM).length - 1]? = some chosen ∧
      ([⟨"inA", "outA", 0⟩, ⟨"inB", "outB", 5⟩] : List LocationM).length - 1 ≠ 0 ∧
      (findSynthSelect { name := "D" } [] [⟨"inA", "outA", 0⟩, ⟨"inB", "outB", 5⟩]).1 =
        { name := "D", input := chosen.input, output := chosen.output,
          channel := some chosen.channel } ∧
      (findSynthSelect { name := "D" } [] [⟨"inA", "outA", 0⟩, ⟨"inB", "outB", 5⟩]).2 =
        persistSetting []
          ((findSynthSelect { name := "D" } [] [⟨"inA", "outA", 0⟩, ⟨"inB", "outB", 5⟩]).1) := by
  exact ⟨by decide,
    c8_last_location_selected { name := "D" } [] [⟨"inA", "outA", 0⟩, ⟨"inB", "outB", 5⟩]
      (by decide)⟩

/-! ### C9 — merge keeps non-empty stored fields -/

/-- C9: when `updatePatch` merges an incoming patch onto an existing
row, an empty incoming comment, author or info keeps the stored value, a
non-empty one replaces it; an incoming favorite of Unknown keeps the
stored favorite (for the stored values -1, 0, 1 written by the catalog),
and a decided incoming favorite replaces it. -/
theorem c9_merge_keeps_stored_fields (bits : List (String × Nat)) (np : PatchHolderM)
    (row : PatchRow) (updateName : Bool) :
    ((np.comment = "" → (mergeRowWithIncoming bits np row updateName).comment = row.comment) ∧
     (np.comment ≠ "" → (mergeRowWithIncoming bits np row updateName).comment = np.comment)) ∧
    ((np.author = "" → (mergeRowWithIncoming bits np row updateName).author = row.author) ∧
     (np.author ≠ "" → (mergeRowWithIncoming bits np row updateName).author = np.author)) ∧
    ((np.info = "" → (mergeRowWithIncoming bits np row updateName).info = row.info) ∧
     (np.info ≠ "" → (mergeRowWithIncoming bits np row updateName).info = np.info)) ∧
    ((np.favorite = .dontKnow →
        (row.favorite = -1 ∨ row.favorite = 0 ∨ row.favorite = 1) →
        (mergeRowWithIncoming bits np row updateName).favorite = row.favorite) ∧
     (np.favorite ≠ .dontKnow →
        (mergeRowWithIncoming bits np row updateName).favorite = np.favorite.toInt)) := by
  refine ⟨⟨?_, ?_⟩, ⟨?_, ?_⟩, ⟨?_, ?_⟩, ⟨?_, ?_⟩⟩ <;>
    intro h
  · simp [mergeRowWithIncoming, mergedText, h]
  · simp [mergeRowWithIncoming, mergedText, h]
  · simp [mergeRowWithIncoming, mergedText, h]
  · simp [mergeRowWithIncoming, mergedText, h]
  · simp [mergeRowWithIncoming, mergedText, h]
  · simp [mergeRowWithIncoming, mergedText, h]
  · intro hv
    simp only [mergeRowWithIncoming, calculateMergedFavoriteM, h, if_pos]
    rcases hv with hv | hv | hv <;> rw [hv] <;> rfl
  · simp [mergeRowWithIncoming, calculateMergedFavoriteM, h]

/-- C9 witness: an incoming patch with empty comment/author/info and an
undecided favorite leaves the stored values in place; a decided favorite
replaces the stored one. -/
theorem c9_merge_keeps_stored_fields_witness :
    (mergeRowWithIncoming [] { synth := some "S", patch := some [9] }
        (putPatchRow []
          { synth := some "S", patch := some [9], comment := "keep",
            author := "kept author", info := "kept info", favorite := .no }) true).comment =
      "keep" ∧
    (mergeRowWithIncoming [] { synth := some "S", patch := some [9] }
        (putPatchRow []
          { synth := some "S", patch := some [9], comment := "keep",
            author := "kept author", info := "kept info", favorite := .no }) true).author =
      "kept author" ∧
    (mergeRowWithIncoming [] { synth := some "S", patch := some [9] }
        (putPatchRow []
          { synth := some "S", patch := some [9], comment := "keep",
            author := "kept author", info := "kept info", favorite := .no }) true).favorite =
      0 ∧
    (mergeRowWithIncoming [] { synth := some "S", patch := some [9], favorite := .yes }
        (putPatchRow []
          { synth := some "S", patch := some [9], favorite := .no }) true).favorite = 1 := by
  have h1 := c9_merge_keeps_stored_fields []
    { synth := some "S", patch := some [9] }
    (putPatchRow []
      { synth := some "S", patch := some [9], comment := "keep",
        author := "kept author", info := "kept info", favorite := .no }) true
  have h2 := c9_merge_keeps_stored_fields []
    { synth := some "S", patch := some [9], favorite := .yes }
    (putPatchRow [] { synth := some "S", patch := some [9], favorite := .no }) true
  exact ⟨h1.1.1 rfl, h1.2.1.1 rfl, h1.2.2.2.1 rfl (by right; left; rfl),
    h2.2.2.2.2 (by decide)⟩

/-! ### Helper lemmas for putPatchList -/

theorem length_pilRowsFrom (listId : String) (i : Nat) (ps : List PatchHolderM) :
    (pilRowsFrom listId i ps).length = ps.length := by
  induction ps generalizing i with
  | nil => rfl
  | cons p rest ih => simp [pilRowsFrom, ih]

theorem id_of_mem_pilRowsFrom (listId : String) (i : Nat) (ps : List PatchHolderM) :
    ∀ r ∈ pilRowsFrom listId i ps, r.id = listId := by
  induction ps generalizing i with
  | nil => intro r hr; simp [pilRowsFrom] at hr
  | cons p rest ih =>
    intro r hr
    simp only [pilRowsFrom, List.mem_cons] at hr
    rcases hr with rfl | hr
    · rfl
    · exact ih (i + 1) r hr

theorem takeWhile_of_all {α : Type} (pred : α → Bool) (l : List α)
    (h : ∀ a ∈ l, pred a = true) : l.takeWhile pred = l := by
  induction l with
  | nil => rfl
  | cons a rest ih =>
    rw [List.takeWhile_cons, h a (List.mem_cons_self a rest),
      ih (fun b hb => h b (List.mem_cons_of_mem a hb))]
    simp

theorem putPatchList_patches (withTx : Bool) (db : DbState) (L : StoredListM) :
    (putPatchList withTx db L).patches = db.patches := by
  simp only [putPatchList]
  split <;> rfl

/-! ### C10 — putPatchList replaces the membership of an existing list -/

/-- C10: storing a patch list whose id already exists replaces its
membership completely: the previous `patch_in_list` rows of the id are
gone, the current patches are inserted with order numbers 0..n-1 (so the
stored membership equals exactly the in-memory contents), rows of other
lists are untouched, and no `lists` row is added or removed.  (The
catalog invariant that every member's patch row exists is assumed; a
violating member would abort the transaction.) -/
theorem c10_putPatchList_replaces_membership (db : DbState) (L : StoredListM)
    (hex : db.lists.any (fun l => decide (l.id = L.id)) = true)
    (hfk : ∀ p ∈ L.patches, rowExistsB db (synthNameOf p) p.md5 = true) :
    ((putPatchList true db L).pil.filter (fun r => decide (r.id = L.id)) =
      pilRowsFrom L.id 0 L.patches) ∧
    ((putPatchList true db L).pil.filter (fun r => !decide (r.id = L.id)) =
      db.pil.filter (fun r => !decide (r.id = L.id))) ∧
    ((putPatchList true db L).lists.length = db.lists.length) ∧
    ((putPatchList true db L).patches = db.patches) := by
  have hall : L.patches.all (fun p => rowExistsB db (synthNameOf p) p.md5) = true := by
    rw [List.all_eq_true]; exact hfk
  have htake : L.patches.takeWhile (fun p => rowExistsB db (synthNameOf p) p.md5) = L.patches :=
    takeWhile_of_all _ _ hfk
  have hres : putPatchList true db L =
      { patches := db.patches
        lists := db.lists.map (fun l =>
          if decide (l.id = L.id) then
            match L.kind with
            | .bankKind _ _ ls u =>
              { l with name := L.name, lastSynced := some (ls.getD 0),
                       listType := if u then 2 else 1 }
            | .importKind _ => { l with name := L.name, listType := 3 }
            | .normalKind => { l with name := L.name, listType := 0 }
          else l)
        pil := db.pil.filter (fun r => !decide (r.id = L.id)) ++ pilRowsFrom L.id 0 L.patches } := by
    unfold putPatchList
    rw [hex, hall, htake]
    simp
  rw [hres]
  refine ⟨?_, ?_, by simp, rfl⟩
  · rw [List.filter_append]
    have h1 : (db.pil.filter (fun r => !decide (r.id = L.id))).filter
        (fun r => decide (r.id = L.id)) = [] := by
      rw [List.filter_filter]
      apply List.filter_eq_nil_iff.mpr
      intro r _
      cases h : decide (r.id = L.id) <;> simp [h]
    have h2 : (pilRowsFrom L.id 0 L.patches).filter (fun r => decide (r.id = L.id)) =
        pilRowsFrom L.id 0 L.patches := by
      apply List.filter_eq_self.mpr
      intro r hr
      simp [id_of_mem_pilRowsFrom L.id 0 L.patches r hr]
    rw [h1, h2, List.nil_append]
  · rw [List.filter_append]
    have h1 : (db.pil.filter (fun r => !decide (r.id = L.id))).filter
        (fun r => !decide (r.id = L.id)) = db.pil.filter (fun r => !decide (r.id = L.id)) := by
      rw [List.filter_filter]
      apply List.filter_congr
      intro r _
      cases h : decide (r.id = L.id) <;> simp [h]
    have h2 : (pilRowsFrom L.id 0 L.patches).filter (fun r => !decide (r.id = L.id)) = [] := by
      apply List.filter_eq_nil_iff.mpr
      intro r hr
      simp [id_of_mem_pilRowsFrom L.id 0 L.patches r hr]
    rw [h1, h2, List.append_nil]

/-- C10 witness: overwriting a one-entry list with a different single
entry leaves exactly that entry (order 0) as the stored membership. -/
theorem c10_putPatchList_replaces_membership_witness :
    ((putPatchList true dbC10 listC10).pil.filter (fun r => decide (r.id = listC10.id)) =
      pilRowsFrom listC10.id 0 listC10.patches) ∧
    pilRowsFrom listC10.id 0 listC10.patches =
      [{ id := "L1", synth := "S", md5 := [2], orderNum := 0 }] := by
  refine ⟨(c10_putPatchList_replaces_membership dbC10 listC10 (by decide) (by decide)).1,
    by decide⟩

/-! ### C2 — deletion respects synth-bound lists -/

/-- C2 counterexample: in a catalog whose only patch matches the filter
and is referenced only by an import list (no bank list exists: every list
has `midi_bank_number` NULL and the import type), `delete_patches` does
not delete the row - it survives with `hidden = 1` - contradicting the
claim that every matching row referenced by no bank list is deleted. -/
theorem c2_counterexample :
    (∀ l ∈ dbImportOnly.lists, l.listType = 3 ∧ l.midiBankNumber = none) ∧
    (deletePatchesFilter (fun _ => true) dbImportOnly).patches ≠ [] ∧
    ((deletePatchesFilter (fun _ => true) dbImportOnly).patches.map (fun p => p.hidden)) =
      [1] := by
  decide

/-- C2 amended: for every compiled row filter `m`, after
`delete_patches(m)` (with unique list ids and the `(synth, md5)` primary
key):
1. every matching row referenced through a list with a synth binding
   (synth bank, user bank or import list) is not removed but kept with
   `hidden = 1`;
2. every matching row all of whose list references are plain
   (synth-less) lists is deleted;
3. matching membership rows of plain lists are removed;
4. afterwards no `patch_in_list` row references a missing patch. -/
theorem c2_amended_delete_respects_synth_lists (m : PatchRow → Bool) (db : DbState)
    (huniq : ∀ l1 ∈ db.lists, ∀ l2 ∈ db.lists, l1.id = l2.id → l1 = l2)
    (hpuniq : ∀ p1 ∈ db.patches, ∀ p2 ∈ db.patches,
        p1.synth = p2.synth → p1.md5 = p2.md5 → p1 = p2) :
    (∀ p ∈ db.patches, m p = true →
      ∀ r ∈ db.pil, r.md5 = p.md5 → r.synth = p.synth →
      ∀ l ∈ db.lists, l.id = r.id → l.synth ≠ none →
      { p with hidden := 1 } ∈ (deletePatchesFilter m db).patches) ∧
    (∀ p ∈ db.patches, m p = true →
      (∀ r ∈ db.pil, r.md5 = p.md5 → r.synth = p.synth →
        ∃ l ∈ db.lists, l.id = r.id ∧ l.synth = none) →
      ∀ q ∈ (deletePatchesFilter m db).patches, ¬(q.synth = p.synth ∧ q.md5 = p.md5)) ∧
    (∀ r ∈ db.pil,
      (∃ p ∈ db.patches, m p = true ∧ p.md5 = r.md5 ∧ p.synth = r.synth) →
      (∃ l ∈ db.lists, l.id = r.id ∧ l.synth = none) →
      r ∉ (deletePatchesFilter m db).pil) ∧
    (∀ r ∈ (deletePatchesFilter m db).pil,
      ∃ q ∈ (deletePatchesFilter m db).patches, q.md5 = r.md5 ∧ q.synth = r.synth) := by
  have hpatches : (deletePatchesFilter m db).patches =
      delPatches3 m (delStep1 m db) (delPatches2 m db (delStep1 m db)) := rfl
  have hpil : (deletePatchesFilter m db).pil =
      (delStep1 m db).filter (fun r =>
        (delPatches3 m (delStep1 m db) (delPatches2 m db (delStep1 m db))).any
          (fun p => decide (p.md5 = r.md5) && decide (p.synth = r.synth))) := rfl
  refine ⟨?_, ?_, ?_, ?_⟩
  · -- (1) synth-bound reference → hidden, not removed
    intro p hp hm r hr hrmd5 hrsynth l hl hlid hlsynth
    -- the reference survives step 1: its list is synth-bound and ids are unique
    have hr1 : r ∈ delStep1 m db := by
      refine List.mem_filter.mpr ⟨hr, ?_⟩
      simp only [Bool.not_eq_true', Bool.and_eq_false_iff]
      right
      rw [List.any_eq_false]
      intro l' hl'
      by_cases hid' : l'.id = r.id
      · have hll : l' = l := huniq l' hl' l hl (by rw [hid', hlid])
        subst hll
        simp [hlsynth]
      · simp [hid']
    -- so the row is hidden in step 2
    have hhide : delShouldHide m db (delStep1 m db) p = true := by
      unfold delShouldHide
      rw [hm, Bool.true_and, List.any_eq_true]
      refine ⟨r, hr1, ?_⟩
      simp only [Bool.and_eq_true, decide_eq_true_eq]
      refine ⟨⟨hrmd5, hrsynth⟩, ?_⟩
      rw [List.any_eq_true]
      exact ⟨l, hl, by simp [hlid, hlsynth]⟩
    have hmem2 : ({ p with hidden := 1 } : PatchRow) ∈ delPatches2 m db (delStep1 m db) := by
      unfold delPatches2
      exact List.mem_map.mpr ⟨p, hp, by rw [if_pos hhide]⟩
    -- and survives step 3 because a reference remains
    rw [hpatches]
    unfold delPatches3
    refine List.mem_filter.mpr ⟨hmem2, ?_⟩
    simp only [Bool.not_eq_true', Bool.and_eq_false_iff]
    right
    simp only [Bool.not_eq_false', List.any_eq_true]
    exact ⟨r, hr1, by simp [hrmd5, hrsynth]⟩
  · -- (2) only plain-list references → deleted
    intro p hp hm hrefs q hq hkeys
    -- no reference to p survives step 1
    have hnoref : ∀ r ∈ delStep1 m db, ¬(r.md5 = p.md5 ∧ r.synth = p.synth) := by
      intro r hr1 hand
      have hr := (List.mem_filter.mp hr1).1
      have hcond := (List.mem_filter.mp hr1).2
      obtain ⟨l, hl, hlprop⟩ := hrefs r hr hand.1 hand.2
      simp only [Bool.not_eq_true', Bool.and_eq_false_iff] at hcond
      rcases hcond with hcond | hcond
      · rw [List.any_eq_false] at hcond
        have h2 := hcond p hp
        simp [hm, hand.1, hand.2] at h2
      · rw [List.any_eq_false] at hcond
        have h2 := hcond l hl
        simp [hlprop.1, hlprop.2] at h2
    rw [hpatches] at hq
    unfold delPatches3 at hq
    obtain ⟨hq2, hqcond⟩ := List.mem_filter.mp hq
    unfold delPatches2 at hq2
    obtain ⟨p0, hp0, hp0eq⟩ := List.mem_map.mp hq2
    -- the hide step keeps the key columns
    have hqsynth : q.synth = p0.synth := by
      by_cases hh : delShouldHide m db (delStep1 m db) p0 = true
      · rw [if_pos hh] at hp0eq; rw [← hp0eq]
      · rw [if_neg hh] at hp0eq; rw [← hp0eq]
    have hqmd5 : q.md5 = p0.md5 := by
      by_cases hh : delShouldHide m db (delStep1 m db) p0 = true
      · rw [if_pos hh] at hp0eq; rw [← hp0eq]
      · rw [if_neg hh] at hp0eq; rw [← hp0eq]
    have hp0p : p0 = p := hpuniq p0 hp0 p hp (by rw [← hqsynth, hkeys.1])
      (by rw [← hqmd5, hkeys.2])
    subst hp0p
    -- p itself is not hidden: it has no surviving reference
    have hnohide : delShouldHide m db (delStep1 m db) p0 = false := by
      unfold delShouldHide
      rw [Bool.and_eq_false_iff]
      right
      rw [List.any_eq_false]
      intro r hr1
      by_cases h5 : r.md5 = p0.md5 ∧ r.synth = p0.synth
      · exact absurd h5 (hnoref r hr1)
      · rcases not_and_or.mp h5 with h6 | h6 <;> simp [h6]
    rw [if_neg (by rw [hnohide]; simp)] at hp0eq
    subst hp0eq
    -- but the step-3 filter can only keep it with a surviving reference
    simp only [Bool.not_eq_true', Bool.and_eq_false_iff] at hqcond
    rcases hqcond with hqcond | hqcond
    · rw [hm] at hqcond
      exact absurd hqcond (by decide)
    · simp only [Bool.not_eq_false', List.any_eq_true] at hqcond
      obtain ⟨r, hr1, hrprop⟩ := hqcond
      simp only [Bool.and_eq_true, decide_eq_true_eq] at hrprop
      exact hnoref r hr1 ⟨hrprop.1, hrprop.2⟩
  · -- (3) matching plain-list membership rows are removed first
    rintro r hr ⟨p, hp, hm, hpmd5, hpsynth⟩ ⟨l, hl, hlid, hlnone⟩
    have hgone : r ∉ delStep1 m db := by
      intro hr1
      have hcond := (List.mem_filter.mp hr1).2
      simp only [Bool.not_eq_true', Bool.and_eq_false_iff] at hcond
      rcases hcond with hcond | hcond
      · rw [List.any_eq_false] at hcond
        have h2 := hcond p hp
        simp [hm, hpmd5, hpsynth] at h2
      · rw [List.any_eq_false] at hcond
        have h2 := hcond l hl
        simp [hlid, hlnone] at h2
    intro hmem
    rw [hpil] at hmem
    exact hgone (List.mem_filter.mp hmem).1
  · -- (4) orphan-free
    intro r hmem
    rw [hpil] at hmem
    have h3 := (List.mem_filter.mp hmem).2
    rw [List.any_eq_true] at h3
    obtain ⟨q, hq, hqprop⟩ := h3
    simp only [Bool.and_eq_true, decide_eq_true_eq] at hqprop
    exact ⟨q, hq, hqprop.1, hqprop.2⟩

/-- C2 amended witness: in the import-list catalog the matching row
survives as a hidden row (conjunct 1 of the amended statement at a
concrete instance). -/
theorem c2_amended_delete_respects_synth_lists_witness :
    ({ putPatchRow [] holderTS with hidden := 1 } : PatchRow) ∈
      (deletePatchesFilter (fun _ => true) dbImportOnly).patches := by
  have h := c2_amended_delete_respects_synth_lists (fun _ => true) dbImportOnly
    (by decide) (by decide)
  exact h.1 (putPatchRow [] holderTS) (by decide) rfl
    { id := "L", synth := "TS", md5 := [1, 2], orderNum := 0 } (by decide) (by decide) (by decide)
    importListRow (by decide) (by decide) (by decide)

/-! ### Helper lemmas for the query model -/

theorem flatMap_eq_map_of {α β : Type} (f : α → List β) (g : α → β) (l : List α)
    (h : ∀ x, f x = [g x]) : l.flatMap f = l.map g := by
  induction l with
  | nil => rfl
  | cons a rest ih => simp [List.flatMap_cons, h a, ih]

theorem filter_over_map {α β : Type} (g : α → β) (p : β → Bool) (l : List α) :
    (l.map g).filter p = (l.filter (fun x => p (g x))).map g := by
  induction l with
  | nil => rfl
  | cons a rest ih =>
    simp only [List.map_cons, List.filter_cons]
    cases h : p (g a) <;> simp [h, ih]

theorem length_ordInsertB {α : Type} (le : α → α → Bool) (x : α) (l : List α) :
    (ordInsertB le x l).length = l.length + 1 := by
  induction l with
  | nil => rfl
  | cons y ys ih =>
    unfold ordInsertB
    cases le x y <;> simp [ih]

theorem length_sortByB {α : Type} (le : α → α → Bool) (l : List α) :
    (sortByB le l).length = l.length := by
  induction l with
  | nil => rfl
  | cons x xs ih => simp [sortByB, length_ordInsertB, ih]

theorem mem_of_mem_ordInsertB {α : Type} (le : α → α → Bool) (x y : α) (l : List α)
    (h : y ∈ ordInsertB le x l) : y = x ∨ y ∈ l := by
  induction l with
  | nil => simp [ordInsertB] at h; exact Or.inl h
  | cons z zs ih =>
    unfold ordInsertB at h
    by_cases hc : le x z = true
    · rw [if_pos hc] at h
      rcases List.mem_cons.mp h with h | h
      · exact Or.inl h
      · exact Or.inr h
    · rw [if_neg hc] at h
      rcases List.mem_cons.mp h with h | h
      · exact Or.inr (h ▸ List.mem_cons_self z zs)
      · rcases ih h with h | h
        · exact Or.inl h
        · exact Or.inr (List.mem_cons_of_mem z h)

theorem mem_of_mem_sortByB {α : Type} (le : α → α → Bool) (y : α) (l : List α)
    (h : y ∈ sortByB le l) : y ∈ l := by
  induction l with
  | nil => simp [sortByB] at h
  | cons x xs ih =>
    unfold sortByB at h
    rcases mem_of_mem_ordInsertB le x y (sortByB le xs) h with h | h
    · exact h ▸ List.mem_cons_self x xs
    · exact List.mem_cons_of_mem x (ih h)

theorem length_orderRows (f : PatchFilterM) (rows : List JoinedRow) :
    (orderRows f rows).length = rows.length := by
  unfold orderRows
  cases f.orderBy <;> first | rfl | exact length_sortByB _ rows

theorem mem_of_mem_orderRows (f : PatchFilterM) (rows : List JoinedRow) (y : JoinedRow)
    (h : y ∈ orderRows f rows) : y ∈ rows := by
  revert h
  unfold orderRows
  cases f.orderBy <;> intro h <;> first | exact h | exact mem_of_mem_sortByB _ y rows h

/-! ### C4 — count versus row query -/

/-- C4 counterexample: with an empty synth selection the count query
counts every row (no synth clause is emitted), while `getPatches` skips
every returned row at the synth-map lookup, so
`count(F) = 1 ≠ 0 = len(patches(F, skip=0, limit=-1))`. -/
theorem c4_counterexample :
    getPatchesCountM { synths := [] } dbImportOnly = 1 ∧
    (getPatchesM (fun _ _ => 8) [] { synths := [] } dbImportOnly).length = 0 := by
  decide

/-- C4 amended: for every filter with a non-empty synth selection and an
ordering other than by-import-id (whose LEFT JOIN can multiply rows),
`count(F)` equals `len(patches(F, skip=0, limit=-1))`. -/
theorem c4_amended_count_matches_rows (bankSizeOf : String → Nat → Nat)
    (bits : List (String × Nat)) (f : PatchFilterM) (db : DbState)
    (h1 : f.synths ≠ []) (h2 : f.orderBy ≠ .byImportId) :
    getPatchesCountM f db = (getPatchesM bankSizeOf bits f db).length := by
  unfold getPatchesM getPatchesCountM
  have hjoin : getPatchesJoin f db =
      (baseJoin f db).map (fun pq => (pq.1, pq.2, (none : Option (PilRow × String)))) := by
    unfold getPatchesJoin
    exact flatMap_eq_map_of _ _ _ (fun pq => by rw [if_neg h2])
  rw [hjoin, filter_over_map]
  set w := fun pq : PatchRow × Option PilRow => evalWhere f db.patches pq.1 pq.2 with hw
  have hall : ∀ y ∈ orderRows f
      (((baseJoin f db).filter w).map
        (fun pq => (pq.1, pq.2, (none : Option (PilRow × String))))),
      f.synths.contains y.1.synth = true := by
    intro y hy
    have hy2 := mem_of_mem_orderRows f _ y hy
    obtain ⟨pq, hpq, hpqe⟩ := List.mem_map.mp hy2
    have hwpq : w pq = true := (List.mem_filter.mp hpq).2
    rw [hw] at hwpq
    unfold evalWhere at hwpq
    have hfirst : (decide (f.synths = []) || f.synths.any
        (fun s => decide (pq.1.synth = s))) = true := by
      simp only [Bool.and_eq_true] at hwpq
      exact hwpq.1.1.1.1.1.1
    rw [Bool.or_eq_true] at hfirst
    rcases hfirst with hfirst | hfirst
    · exact absurd (of_decide_eq_true hfirst) h1
    · rw [List.any_eq_true] at hfirst
      obtain ⟨s, hs, hes⟩ := hfirst
      have : pq.1.synth = s := of_decide_eq_true hes
      have hmem : y.1.synth ∈ f.synths := by
        rw [← hpqe]
        simpa [this] using hs
      exact List.elem_eq_true_of_mem hmem
  simp only [List.filter_eq_self.mpr hall, List.length_map, length_orderRows]

/-- C4 amended witness: with a one-synth filter and no ordering, count
and row-query length agree (both 1 on the one-patch catalog). -/
theorem c4_amended_count_matches_rows_witness :
    getPatchesCountM { synths := ["TS"] } dbImportOnly =
      (getPatchesM (fun _ _ => 8) [] { synths := ["TS"] } dbImportOnly).length ∧
    getPatchesCountM { synths := ["TS"] } dbImportOnly = 1 := by
  refine ⟨c4_amended_count_matches_rows (fun _ _ => 8) [] { synths := ["TS"] } dbImportOnly
    (by decide) (by decide), by decide⟩

/-! ### C1 — interchange round trip -/

/-- C1: the round trip drops author and info.  `save` writes no `Author`
and no `Info` member and `load` never reads them (the repository's own
test `test_patch_interchange_format.cpp` checks both), so saving the E1
holder (author `Unit Tester`, info `Created for tests`) and loading the
document back yields a holder with empty author and info, while every
other claimed field of this entry does round-trip. -/
theorem c1_roundtrip_loses_author_info :
    (loadPIF [testSynthPif] pifFileSource testDetector
        (savePIF [testSynthPif] [holderE1])).length = 1 ∧
    ((loadPIF [testSynthPif] pifFileSource testDetector
        (savePIF [testSynthPif] [holderE1])).map (fun h => h.author)) = [""] ∧
    ((loadPIF [testSynthPif] pifFileSource testDetector
        (savePIF [testSynthPif] [holderE1])).map (fun h => h.info)) = [""] ∧
    holderE1.author = "Unit Tester" ∧
    holderE1.info = "Created for tests" ∧
    ((loadPIF [testSynthPif] pifFileSource testDetector
        (savePIF [testSynthPif] [holderE1])).map (fun h =>
          (h.md5, h.name, h.favorite, h.bank, h.program.toZeroBasedDiscardingBank,
           categoryInter h.categories h.userDecisions,
           categoryDiff h.userDecisions h.categories, h.comment, h.sourceInfo))) =
      [(holderE1.md5, holderE1.name, holderE1.favorite, holderE1.bank,
        holderE1.program.toZeroBasedDiscardingBank,
        categoryInter holderE1.categories holderE1.userDecisions,
        categoryDiff holderE1.userDecisions holderE1.categories, holderE1.comment,
        holderE1.sourceInfo)] := by
  exact ⟨rfl, rfl, rfl, rfl, rfl, rfl⟩

/-! ### C7 — edit buffers deduplicated against program dumps -/

/-- The edit-buffer pass emits exactly the complete edit-buffer patches
whose fingerprint is not among `ids`. -/
theorem editLoop_eq_filter_candidates (ec : EditCapsM) (fp : Nat → String) (maxN : Nat)
    (ids : List String) (msgs deque : List Nat) :
    editLoop ec fp maxN ids deque msgs =
      (editCandidates ec maxN deque msgs).filter (fun p => !ids.contains (fp p)) := by
  induction msgs generalizing deque with
  | nil => rfl
  | cons m rest ih =>
    by_cases hpart : ec.isMessagePartOfEditBuffer m = true
    · by_cases hdump : ec.isEditBufferDump (popIfOver maxN (deque ++ [m])) = true
      · cases hdec : ec.patchFromSysex (popIfOver maxN (deque ++ [m])) with
        | none => simp [editLoop, editCandidates, hpart, hdump, hdec, ih]
        | some p =>
          by_cases hin : fp p ∈ ids
          · simp [editLoop, editCandidates, hpart, hdump, hdec, hin, ih]
          · simp [editLoop, editCandidates, hpart, hdump, hdec, hin, ih]
      · simp [editLoop, editCandidates, hpart, hdump, ih]
    · simp [editLoop, editCandidates, hpart, ih]

/-- C7: for a synth with both program-dump and edit-buffer capabilities
(and no stream loader), `loadSysex` emits the program dumps, then
exactly those complete edit-buffer patches whose fingerprint does not
match a program-dump patch emitted from the same sequence, then the
bank-dump and data-file results. -/
theorem c7_edit_buffers_deduplicated (s : SynthLoadM) (pc : ProgCapsM) (ec : EditCapsM)
    (msgs : List Nat) (hs : s.stream = none) (hp : s.programDump = some pc)
    (he : s.editBuffer = some ec) :
    loadSysexM s msgs =
      progLoop pc s.maxMsgsPerPatch [] msgs ++
      ((editCandidates ec s.maxMsgsPerPatch [] msgs).filter (fun p =>
        !((progLoop pc s.maxMsgsPerPatch [] msgs).map s.fingerprint).contains
          (s.fingerprint p))) ++
      (match s.bankDump with
       | some bc => bankLoop bc s.maxMsgsPerBank [] msgs
       | none => []) ++
      (match s.dataFile with
       | some dc => dataLoop dc msgs
       | none => []) := by
  unfold loadSysexM
  rw [hs, hp, he]
  dsimp only
  rw [editLoop_eq_filter_candidates]

/-- C7 witness: two messages decode as program dumps 1 and 2 and as edit
buffers 11 and 12; the edit buffers fingerprint like the program dumps
and are both dropped, leaving exactly the two program dumps. -/
theorem c7_edit_buffers_deduplicated_witness :
    witnessSynthLoad.stream = none ∧
    loadSysexM witnessSynthLoad [1, 2] =
      progLoop witnessProgCaps witnessSynthLoad.maxMsgsPerPatch [] [1, 2] ++
      ((editCandidates witnessEditCaps witnessSynthLoad.maxMsgsPerPatch [] [1, 2]).filter
        (fun p =>
          !((progLoop witnessProgCaps witnessSynthLoad.maxMsgsPerPatch [] [1, 2]).map
              witnessSynthLoad.fingerprint).contains (witnessSynthLoad.fingerprint p))) ++
      [] ++ [] ∧
    loadSysexM witnessSynthLoad [1, 2] = [1, 2] ∧
    editCandidates witnessEditCaps witnessSynthLoad.maxMsgsPerPatch [] [1, 2] = [11, 12] := by
  refine ⟨rfl, ?_, by decide, by decide⟩
  exact c7_edit_buffers_deduplicated witnessSynthLoad witnessProgCaps witnessEditCaps [1, 2]
    rfl rfl rfl

/-! ### Helper lemmas for the merge pipeline (C3) -/

theorem rowExistsB_eq_of_patches (db db' : DbState) (h : db'.patches = db.patches)
    (s : String) (m : List Nat) : rowExistsB db' s m = rowExistsB db s m := by
  unfold rowExistsB
  rw [h]

theorem updateKnownPatch_lists (bits : List (String × Nat)) (isDefault : PatchHolderM → Bool)
    (db : DbState) (ph : PatchHolderM) :
    (updateKnownPatch bits isDefault db ph).lists = db.lists := by
  unfold updateKnownPatch
  split <;> rfl

theorem updateKnownPatch_pil (bits : List (String × Nat)) (isDefault : PatchHolderM → Bool)
    (db : DbState) (ph : PatchHolderM) :
    (updateKnownPatch bits isDefault db ph).pil = db.pil := by
  unfold updateKnownPatch
  split <;> rfl

theorem updateKnownPatch_length (bits : List (String × Nat)) (isDefault : PatchHolderM → Bool)
    (db : DbState) (ph : PatchHolderM) :
    (updateKnownPatch bits isDefault db ph).patches.length = db.patches.length := by
  unfold updateKnownPatch
  split
  · exact List.length_map _ _
  · rfl

theorem updateKnownPatch_rowExists (bits : List (String × Nat)) (isDefault : PatchHolderM → Bool)
    (db : DbState) (ph : PatchHolderM) (s : String) (m : List Nat) :
    rowExistsB (updateKnownPatch bits isDefault db ph) s m = rowExistsB db s m := by
  unfold updateKnownPatch
  split
  · unfold rowExistsB
    simp only [List.any_map]
    have hfun : ((fun p => decide (p.synth = s) && decide (p.md5 = m)) ∘
        (fun row => if decide (row.synth = synthNameOf ph) && decide (row.md5 = ph.md5) then
          mergeRowWithIncoming bits ph row (!isDefault ph) else row)) =
        (fun p : PatchRow => decide (p.synth = s) && decide (p.md5 = m)) := by
      funext r
      simp only [Function.comp]
      split <;> rfl
    rw [hfun]
  · rfl

theorem updateKnownPatch_wf (bits : List (String × Nat)) (isDefault : PatchHolderM → Bool)
    (db : DbState) (ph : PatchHolderM) (hwf : WellFormedRows db) :
    WellFormedRows (updateKnownPatch bits isDefault db ph) := by
  unfold updateKnownPatch
  split
  · intro r hr
    obtain ⟨r0, hr0, hr0e⟩ := List.mem_map.mp hr
    by_cases hc : (decide (r0.synth = synthNameOf ph) && decide (r0.md5 = ph.md5)) = true
    · rw [if_pos hc] at hr0e
      have hc2 := hc
      rw [Bool.and_eq_true] at hc2
      have hmd5 : r0.md5 = ph.md5 := of_decide_eq_true hc2.2
      rw [← hr0e]
      show ph.patch.getD [] = r0.md5
      rw [hmd5]
      rfl
    · rw [if_neg hc] at hr0e
      rw [← hr0e]
      exact hwf r0 hr0
  · exact hwf

theorem phase1_lists (bits : List (String × Nat)) (isDefault : PatchHolderM → Bool)
    (c : PatchHolderM → Bool) (ps : List PatchHolderM) : ∀ db : DbState,
    (ps.foldl (fun acc ph => if c ph then updateKnownPatch bits isDefault acc ph else acc)
      db).lists = db.lists := by
  induction ps with
  | nil => intro db; rfl
  | cons ph rest ih =>
    intro db
    rw [List.foldl_cons, ih]
    by_cases hc : c ph = true
    · rw [if_pos hc, updateKnownPatch_lists]
    · rw [if_neg hc]

theorem phase1_pil (bits : List (String × Nat)) (isDefault : PatchHolderM → Bool)
    (c : PatchHolderM → Bool) (ps : List PatchHolderM) : ∀ db : DbState,
    (ps.foldl (fun acc ph => if c ph then updateKnownPatch bits isDefault acc ph else acc)
      db).pil = db.pil := by
  induction ps with
  | nil => intro db; rfl
  | cons ph rest ih =>
    intro db
    rw [List.foldl_cons, ih]
    by_cases hc : c ph = true
    · rw [if_pos hc, updateKnownPatch_pil]
    · rw [if_neg hc]

theorem phase1_length (bits : List (String × Nat)) (isDefault : PatchHolderM → Bool)
    (c : PatchHolderM → Bool) (ps : List PatchHolderM) : ∀ db : DbState,
    (ps.foldl (fun acc ph => if c ph then updateKnownPatch bits isDefault acc ph else acc)
      db).patches.length = db.patches.length := by
  induction ps with
  | nil => intro db; rfl
  | cons ph rest ih =>
    intro db
    rw [List.foldl_cons, ih]
    by_cases hc : c ph = true
    · rw [if_pos hc, updateKnownPatch_length]
    · rw [if_neg hc]

theorem phase1_rowExists (bits : List (String × Nat)) (isDefault : PatchHolderM → Bool)
    (c : PatchHolderM → Bool) (ps : List PatchHolderM) : ∀ (db : DbState) (s : String)
    (m : List Nat),
    rowExistsB
      (ps.foldl (fun acc ph => if c ph then updateKnownPatch bits isDefault acc ph else acc) db)
      s m = rowExistsB db s m := by
  induction ps with
  | nil => intro db s m; rfl
  | cons ph rest ih =>
    intro db s m
    rw [List.foldl_cons, ih]
    by_cases hc : c ph = true
    · rw [if_pos hc, updateKnownPatch_rowExists]
    · rw [if_neg hc]

theorem phase1_wf (bits : List (String × Nat)) (isDefault : PatchHolderM → Bool)
    (c : PatchHolderM → Bool) (ps : List PatchHolderM) : ∀ db : DbState, WellFormedRows db →
    WellFormedRows
      (ps.foldl (fun acc ph => if c ph then updateKnownPatch bits isDefault acc ph else acc)
        db) := by
  induction ps with
  | nil => intro db h; exact h
  | cons ph rest ih =>
    intro db h
    rw [List.foldl_cons]
    apply ih
    by_cases hc : c ph = true
    · rw [if_pos hc]; exact updateKnownPatch_wf bits isDefault db ph h
    · rw [if_neg hc]; exact h

theorem phase1_no_update (bits : List (String × Nat)) (isDefault : PatchHolderM → Bool)
    (c : PatchHolderM → Bool) (ps : List PatchHolderM) (hc : ∀ ph ∈ ps, c ph = false) :
    ∀ db : DbState,
    (ps.foldl (fun acc ph => if c ph then updateKnownPatch bits isDefault acc ph else acc) db) =
      db := by
  induction ps with
  | nil => intro db; rfl
  | cons ph rest ih =>
    intro db
    rw [List.foldl_cons, if_neg (by rw [hc ph (List.mem_cons_self ph rest)]; exact
      Bool.false_ne_true)]
    exact ih (fun q hq => hc q (List.mem_cons_of_mem ph hq)) db

theorem insertLoop_lists (bits : List (String × Nat)) (isDefault : PatchHolderM → Bool)
    (rest : List PatchHolderM) : ∀ (db : DbState) (seen : List (List Nat × PatchHolderM)),
    (insertLoop bits isDefault db seen rest).lists = db.lists := by
  induction rest with
  | nil => intro db seen; rfl
  | cons ph rest' ih =>
    intro db seen
    unfold insertLoop
    cases hfind : seen.find? (fun e => decide (e.1 = ph.md5)) with
    | some dup =>
      rw [ih]
      split <;> rfl
    | none => rw [ih]

theorem insertLoop_pil (bits : List (String × Nat)) (isDefault : PatchHolderM → Bool)
    (rest : List PatchHolderM) : ∀ (db : DbState) (seen : List (List Nat × PatchHolderM)),
    (insertLoop bits isDefault db seen rest).pil = db.pil := by
  induction rest with
  | nil => intro db seen; rfl
  | cons ph rest' ih =>
    intro db seen
    unfold insertLoop
    cases hfind : seen.find? (fun e => decide (e.1 = ph.md5)) with
    | some dup =>
      rw [ih]
      split <;> rfl
    | none => rw [ih]

theorem insertLoop_rowExists_mono (bits : List (String × Nat)) (isDefault : PatchHolderM → Bool)
    (rest : List PatchHolderM) : ∀ (db : DbState) (seen : List (List Nat × PatchHolderM))
    (s : String) (m : List Nat), rowExistsB db s m = true →
    rowExistsB (insertLoop bits isDefault db seen rest) s m = true := by
  induction rest with
  | nil => intro db seen s m h; exact h
  | cons ph rest' ih =>
    intro db seen s m h
    unfold insertLoop
    cases hfind : seen.find? (fun e => decide (e.1 = ph.md5)) with
    | some dup =>
      apply ih
      split
      · unfold rowExistsB at h ⊢
        simp only [List.any_map]
        have hfun : ((fun p => decide (p.synth = s) && decide (p.md5 = m)) ∘
            (fun row => if decide (row.synth = synthNameOf dup.2) && decide (row.md5 = ph.md5)
              then { row with name := ph.name } else row)) =
            (fun p : PatchRow => decide (p.synth = s) && decide (p.md5 = m)) := by
          funext r
          simp only [Function.comp]
          split <;> rfl
        rw [hfun]
        exact h
      · exact h
    | none =>
      apply ih
      unfold rowExistsB at h ⊢
      rw [List.any_append, h, Bool.true_or]

theorem insertLoop_wf (bits : List (String × Nat)) (isDefault : PatchHolderM → Bool)
    (rest : List PatchHolderM) : ∀ (db : DbState) (seen : List (List Nat × PatchHolderM)),
    WellFormedRows db → WellFormedRows (insertLoop bits isDefault db seen rest) := by
  induction rest with
  | nil => intro db seen h; exact h
  | cons ph rest' ih =>
    intro db seen h
    unfold insertLoop
    cases hfind : seen.find? (fun e => decide (e.1 = ph.md5)) with
    | some dup =>
      apply ih
      split
      · intro r hr
        obtain ⟨r0, hr0, hr0e⟩ := List.mem_map.mp hr
        rw [← hr0e]
        split <;> exact h r0 hr0
      · exact h
    | none =>
      apply ih
      intro r hr
      rcases List.mem_append.mp hr with hr | hr
      · exact h r hr
      · rw [List.mem_singleton.mp hr]
        rfl

theorem insertLoop_covers (bits : List (String × Nat)) (isDefault : PatchHolderM → Bool)
    (ps : List PatchHolderM)
    (hmd5 : ∀ p ∈ ps, ∀ q ∈ ps, p.md5 = q.md5 → synthNameOf p = synthNameOf q)
    (rest : List PatchHolderM) : ∀ (db : DbState) (seen : List (List Nat × PatchHolderM)),
    (∀ e ∈ seen, e.1 = e.2.md5 ∧ e.2 ∈ ps ∧ rowExistsB db (synthNameOf e.2) e.1 = true) →
    (∀ ph ∈ rest, ph ∈ ps) →
    ∀ ph ∈ rest, rowExistsB (insertLoop bits isDefault db seen rest) (synthNameOf ph)
      ph.md5 = true := by
  induction rest with
  | nil => intro db seen _ _ ph hph; simp at hph
  | cons ph0 rest' ih =>
    intro db seen hseen hsub ph hph
    unfold insertLoop
    cases hfind : seen.find? (fun e => decide (e.1 = ph0.md5)) with
    | some dup =>
      -- the batch duplicate only renames; the row for this md5 exists through `seen`
      have hdup := hseen dup (List.mem_of_find?_eq_some hfind)
      have hdupmd5 : dup.1 = ph0.md5 := by
        have h1 := List.find?_some hfind
        simpa using h1
      have hstep : ∀ s m, rowExistsB
          (if isDefault dup.2 && !isDefault ph0 then
            { db with patches := db.patches.map (fun row =>
                if decide (row.synth = synthNameOf dup.2) && decide (row.md5 = ph0.md5) then
                  { row with name := ph0.name }
                else row) }
          else db) s m = rowExistsB db s m := by
        intro s m
        split
        · unfold rowExistsB
          simp only [List.any_map]
          have hfun : ((fun p => decide (p.synth = s) && decide (p.md5 = m)) ∘
              (fun row => if decide (row.synth = synthNameOf dup.2) &&
                  decide (row.md5 = ph0.md5) then { row with name := ph0.name } else row)) =
              (fun p : PatchRow => decide (p.synth = s) && decide (p.md5 = m)) := by
            funext r
            simp only [Function.comp]
            split <;> rfl
          rw [hfun]
        · rfl
      rcases List.mem_cons.mp hph with rfl | hph'
      · -- ph is the duplicate itself: the seen row covers its key
        apply insertLoop_rowExists_mono
        rw [hstep]
        have hsynth : synthNameOf dup.2 = synthNameOf ph :=
          hmd5 dup.2 hdup.2.1 ph (hsub ph (List.mem_cons_self ph rest'))
            (by rw [← hdupmd5, hdup.1])
        rw [← hsynth, ← hdupmd5]
        exact hdup.2.2
      · exact ih _ seen
          (fun e he => ⟨(hseen e he).1, (hseen e he).2.1, by
            rw [hstep]; exact (hseen e he).2.2⟩)
          (fun q hq => hsub q (List.mem_cons_of_mem ph0 hq)) ph hph'
    | none =>
      rcases List.mem_cons.mp hph with rfl | hph'
      · -- ph is inserted right here
        apply insertLoop_rowExists_mono
        unfold rowExistsB
        rw [List.any_append]
        simp [putPatchRow]
      · exact ih _ _
          (fun e he => by
            rcases List.mem_append.mp he with he | he
            · refine ⟨(hseen e he).1, (hseen e he).2.1, ?_⟩
              have h2 := (hseen e he).2.2
              unfold rowExistsB at h2 ⊢
              rw [List.any_append, h2, Bool.true_or]
            · rw [List.mem_singleton.mp he]
              refine ⟨rfl, hsub ph0 (List.mem_cons_self ph0 rest'), ?_⟩
              unfold rowExistsB
              rw [List.any_append]
              simp [putPatchRow])
          (fun q hq => hsub q (List.mem_cons_of_mem ph0 hq)) ph hph'

theorem newListRow_id (L : StoredListM) : (newListRow L).id = L.id := by
  unfold newListRow
  cases L.kind <;> rfl

theorem newListRow_import (L : StoredListM) (s : String) (h : L.kind = .importKind s) :
    (newListRow L).listType = 3 ∧ (newListRow L).synth = some s := by
  unfold newListRow
  rw [h]
  exact ⟨rfl, rfl⟩

theorem loadImportList_id (bankSizeOf : String → Nat → Nat) (bits : List (String × Nat))
    (db : DbState) (k synth listName : String) :
    (loadImportList bankSizeOf bits db k synth listName).id = k := by
  unfold loadImportList
  cases db.lists.find? (fun l => decide (l.id = k)) with
  | none => rfl
  | some l =>
    dsimp only
    split <;> rfl

theorem loadImportList_kind (bankSizeOf : String → Nat → Nat) (bits : List (String × Nat))
    (db : DbState) (k synth listName : String) :
    (loadImportList bankSizeOf bits db k synth listName).kind = .importKind synth := by
  unfold loadImportList
  cases db.lists.find? (fun l => decide (l.id = k)) with
  | none => rfl
  | some l =>
    dsimp only
    split <;> rfl

theorem mkStoredGroup_id (bankSizeOf : String → Nat → Nat) (bits : List (String × Nat))
    (db : DbState) (eb : Bool) (k : String) (ms : List PatchHolderM) :
    (mkStoredGroup bankSizeOf bits db eb k ms).id = k :=
  loadImportList_id bankSizeOf bits db k (synthNameOf (ms.headD default))
    (if eb then "Edit buffer imports"
     else ((ms.headD default).sourceInfo.getD (.fromBulk 0 none)).displayString)

theorem mkStoredGroup_kind (bankSizeOf : String → Nat → Nat) (bits : List (String × Nat))
    (db : DbState) (eb : Bool) (k : String) (ms : List PatchHolderM) :
    (mkStoredGroup bankSizeOf bits db eb k ms).kind =
      .importKind (synthNameOf (ms.headD default)) :=
  loadImportList_kind bankSizeOf bits db k (synthNameOf (ms.headD default))
    (if eb then "Edit buffer imports"
     else ((ms.headD default).sourceInfo.getD (.fromBulk 0 none)).displayString)

theorem mkStoredGroup_patches (bankSizeOf : String → Nat → Nat) (bits : List (String × Nat))
    (db : DbState) (eb : Bool) (k : String) (ms : List PatchHolderM) :
    (mkStoredGroup bankSizeOf bits db eb k ms).patches =
      (loadImportList bankSizeOf bits db k (synthNameOf (ms.headD default))
        (if eb then "Edit buffer imports"
         else ((ms.headD default).sourceInfo.getD (.fromBulk 0 none)).displayString)).patches
        ++ ms := rfl

theorem loadImportList_of_lists_nil (bankSizeOf : String → Nat → Nat)
    (bits : List (String × Nat)) (db : DbState) (k synth listName : String)
    (h : db.lists = []) :
    loadImportList bankSizeOf bits db k synth listName =
      { id := k, name := listName, kind := .importKind synth, patches := [] } := by
  unfold loadImportList
  rw [h]
  rfl

theorem mkStoredGroup_patches_of_lists_nil (bankSizeOf : String → Nat → Nat)
    (bits : List (String × Nat)) (db : DbState) (eb : Bool) (k : String)
    (ms : List PatchHolderM) (h : db.lists = []) :
    (mkStoredGroup bankSizeOf bits db eb k ms).patches = ms := by
  rw [mkStoredGroup_patches, loadImportList_of_lists_nil bankSizeOf bits db k _ _ h]
  rfl

theorem mem_pilRowsFrom (listId : String) (ps : List PatchHolderM) :
    ∀ (i : Nat), ∀ r ∈ pilRowsFrom listId i ps,
      ∃ p ∈ ps, r.synth = synthNameOf p ∧ r.md5 = p.md5 := by
  induction ps with
  | nil => intro i r hr; simp [pilRowsFrom] at hr
  | cons p rest ih =>
    intro i r hr
    rw [pilRowsFrom] at hr
    rcases List.mem_cons.mp hr with rfl | hr
    · exact ⟨p, List.mem_cons_self p rest, rfl, rfl⟩
    · obtain ⟨q, hq, h1, h2⟩ := ih (i + 1) r hr
      exact ⟨q, List.mem_cons_of_mem p hq, h1, h2⟩

theorem orderNum_ge_of_mem_pilRowsFrom (listId : String) (ps : List PatchHolderM) :
    ∀ (i : Nat), ∀ r ∈ pilRowsFrom listId i ps, i ≤ r.orderNum := by
  induction ps with
  | nil => intro i r hr; simp [pilRowsFrom] at hr
  | cons p rest ih =>
    intro i r hr
    rw [pilRowsFrom] at hr
    rcases List.mem_cons.mp hr with rfl | hr
    · exact Nat.le_refl i
    · exact Nat.le_trans (Nat.le_succ i) (ih (i + 1) r hr)

theorem pairwise_orderNum_pilRowsFrom (listId : String) (ps : List PatchHolderM) :
    ∀ i, (pilRowsFrom listId i ps).Pairwise
      (fun a b => decide (a.orderNum ≤ b.orderNum) = true) := by
  induction ps with
  | nil => intro i; exact List.Pairwise.nil
  | cons p rest ih =>
    intro i
    rw [pilRowsFrom]
    refine List.pairwise_cons.mpr ⟨?_, ih (i + 1)⟩
    intro b hb
    have h := orderNum_ge_of_mem_pilRowsFrom listId rest (i + 1) b hb
    simp only [decide_eq_true_eq]
    omega

theorem sortByB_of_sorted {α : Type} (le : α → α → Bool) (l : List α)
    (h : l.Pairwise (fun a b => le a b = true)) : sortByB le l = l := by
  induction l with
  | nil => rfl
  | cons x xs ih =>
    show ordInsertB le x (sortByB le xs) = x :: xs
    rw [ih (List.pairwise_cons.mp h).2]
    cases xs with
    | nil => rfl
    | cons y ys =>
      show (if le x y then x :: y :: ys else y :: ordInsertB le x ys) = x :: y :: ys
      rw [if_pos ((List.pairwise_cons.mp h).1 y (List.mem_cons_self y ys))]

theorem filter_pilRowsFrom_self (listId : String) (i : Nat) (ps : List PatchHolderM) :
    (pilRowsFrom listId i ps).filter (fun r => decide (r.id = listId)) =
      pilRowsFrom listId i ps :=
  List.filter_eq_self.mpr (fun r hr => by
    simp [id_of_mem_pilRowsFrom listId i ps r hr])

theorem filter_pilRowsFrom_ne (listId other : String) (h : ¬ listId = other) (i : Nat)
    (ps : List PatchHolderM) :
    (pilRowsFrom listId i ps).filter (fun r => decide (r.id = other)) = [] :=
  List.filter_eq_nil_iff.mpr (fun r hr => by
    simp [id_of_mem_pilRowsFrom listId i ps r hr, h])

theorem filter_flatten_pilRows (Ls : List StoredListM) :
    ∀ L ∈ Ls, List.Pairwise (fun a b => a.id ≠ b.id) Ls →
    ((Ls.map (fun L2 => pilRowsFrom L2.id 0 L2.patches)).flatten).filter
        (fun r => decide (r.id = L.id)) = pilRowsFrom L.id 0 L.patches := by
  induction Ls with
  | nil => intro L h; exact absurd h (List.not_mem_nil L)
  | cons L0 rest ih =>
    intro L hmem hpw
    rw [List.map_cons, List.flatten_cons, List.filter_append]
    have hpwc := List.pairwise_cons.mp hpw
    rcases List.mem_cons.mp hmem with rfl | hmem2
    · rw [filter_pilRowsFrom_self]
      have hrest : ((rest.map (fun L2 => pilRowsFrom L2.id 0 L2.patches)).flatten).filter
          (fun r => decide (r.id = L.id)) = [] := by
        apply List.filter_eq_nil_iff.mpr
        intro r hr
        obtain ⟨sub, hsub, hrsub⟩ := List.mem_flatten.mp hr
        obtain ⟨L2, hL2, rfl⟩ := List.mem_map.mp hsub
        have hid := id_of_mem_pilRowsFrom L2.id 0 L2.patches r hrsub
        simp [hid, (hpwc.1 L2 hL2).symm]
      rw [hrest, List.append_nil]
    · have hne : ¬ L0.id = L.id := hpwc.1 L hmem2
      rw [filter_pilRowsFrom_ne L0.id L.id hne, ih L hmem2 hpwc.2, List.nil_append]

theorem find?_map_newListRow (Ls : List StoredListM) (L : StoredListM) (hmem : L ∈ Ls)
    (hpw : List.Pairwise (fun a b => a.id ≠ b.id) Ls) :
    (Ls.map newListRow).find? (fun l => decide (l.id = L.id)) = some (newListRow L) := by
  induction Ls with
  | nil => exact absurd hmem (List.not_mem_nil L)
  | cons L0 rest ih =>
    rw [List.map_cons]
    rcases List.mem_cons.mp hmem with rfl | hmem2
    · exact List.find?_cons_of_pos _ (by simp [newListRow_id])
    · have hne : L0.id ≠ L.id := (List.pairwise_cons.mp hpw).1 L hmem2
      rw [List.find?_cons_of_neg _ (by simp [newListRow_id, hne])]
      exact ih hmem2 (List.pairwise_cons.mp hpw).2

theorem length_filterMap_of_all_some {α β : Type} (f : α → Option β) (l : List α)
    (h : ∀ x ∈ l, (f x).isSome = true) : (l.filterMap f).length = l.length := by
  induction l with
  | nil => rfl
  | cons a rest ih =>
    cases hfa : f a with
    | none =>
      have hs := h a (List.mem_cons_self a rest)
      rw [hfa] at hs
      exact absurd hs (by simp)
    | some b =>
      rw [List.filterMap_cons, hfa]
      simp only [List.length_cons]
      rw [ih (fun x hx => h x (List.mem_cons_of_mem a hx))]

theorem sum_map_add {α : Type} (f g : α → Nat) (l : List α) :
    (l.map (fun x => f x + g x)).sum = (l.map f).sum + (l.map g).sum := by
  induction l with
  | nil => rfl
  | cons a rest ih =>
    simp only [List.map_cons, List.sum_cons, ih]
    omega

theorem headD_mem_of_ne_nil {α : Type} [Inhabited α] (l : List α) (h : l ≠ []) :
    l.headD default ∈ l := by
  cases l with
  | nil => exact absurd rfl h
  | cons a t => exact List.mem_cons_self a t

theorem any_map_general {α β : Type} (f : α → β) (p : β → Bool) (l : List α) :
    (l.map f).any p = l.any (fun x => p (f x)) := by
  induction l with
  | nil => rfl
  | cons a rest ih => simp [ih]

theorem any_id_eq_of_map_ids (l l2 : List ListRow) (s : String)
    (h : l.map (fun x => x.id) = l2.map (fun x => x.id)) :
    l.any (fun x => decide (x.id = s)) = l2.any (fun x => decide (x.id = s)) := by
  have h2 : ((l.map (fun x => x.id)).any (fun u => decide (u = s))) =
      ((l2.map (fun x => x.id)).any (fun u => decide (u = s))) :=
    congrArg (fun t => t.any (fun u => decide (u = s))) h
  rw [any_map_general, any_map_general] at h2
  exact h2

theorem wf_of_patches_eq (db db2 : DbState) (h : db2.patches = db.patches)
    (hwf : WellFormedRows db) : WellFormedRows db2 := by
  intro r hr
  rw [h] at hr
  exact hwf r hr

theorem synthNameOf_eq (p : PatchHolderM) (S : String) (h : p.synth = some S) :
    synthNameOf p = S := by
  unfold synthNameOf
  rw [h]
  rfl

theorem rowExists_of_loaded (bankSizeOf : String → Nat → Nat) (bits : List (String × Nat))
    (db : DbState) (row : PatchRow) (hrow : row ∈ db.patches) (hwf : WellFormedRows db) :
    rowExistsB db (synthNameOf (loadHolderFromRow bankSizeOf bits row))
      (loadHolderFromRow bankSizeOf bits row).md5 = true := by
  have h1 : synthNameOf (loadHolderFromRow bankSizeOf bits row) = row.synth := rfl
  have h2 : (loadHolderFromRow bankSizeOf bits row).md5 = row.data := rfl
  rw [h1, h2, hwf row hrow]
  apply List.any_eq_true.mpr
  exact ⟨row, hrow, by simp⟩

theorem putPatchList_lists_fresh (db : DbState) (L : StoredListM)
    (hthere : db.lists.any (fun l => decide (l.id = L.id)) = false) :
    (putPatchList false db L).lists = db.lists ++ [newListRow L] := by
  simp only [putPatchList, hthere, Bool.false_and, Bool.false_eq_true, if_false]

theorem putPatchList_pil_fresh (db : DbState) (L : StoredListM)
    (hthere : db.lists.any (fun l => decide (l.id = L.id)) = false)
    (hok : ∀ p ∈ L.patches, rowExistsB db (synthNameOf p) p.md5 = true) :
    (putPatchList false db L).pil = db.pil ++ pilRowsFrom L.id 0 L.patches := by
  simp only [putPatchList, hthere, Bool.false_and, Bool.false_eq_true, if_false]
  rw [takeWhile_of_all _ _ hok]

theorem putPatchList_lists_ids (db : DbState) (L : StoredListM)
    (hthere : db.lists.any (fun l => decide (l.id = L.id)) = true) :
    (putPatchList false db L).lists.map (fun l => l.id) = db.lists.map (fun l => l.id) := by
  simp only [putPatchList, hthere, Bool.false_and, Bool.false_eq_true, if_false,
    eq_self_iff_true, if_true]
  rw [List.map_map]
  apply List.map_congr_left
  intro l _
  dsimp only [Function.comp]
  split
  · split <;> rfl
  · rfl

theorem putPatchList_pil_already (db : DbState) (L : StoredListM)
    (hthere : db.lists.any (fun l => decide (l.id = L.id)) = true)
    (hok : ∀ p ∈ L.patches, rowExistsB db (synthNameOf p) p.md5 = true) :
    (putPatchList false db L).pil =
      db.pil.filter (fun r => !decide (r.id = L.id)) ++ pilRowsFrom L.id 0 L.patches := by
  simp only [putPatchList, hthere, Bool.false_and, Bool.false_eq_true, if_false,
    eq_self_iff_true, if_true]
  rw [takeWhile_of_all _ _ hok]

theorem storeFold_fresh (Ls : List StoredListM) : ∀ (acc : DbState),
    (∀ L ∈ Ls, acc.lists.any (fun l => decide (l.id = L.id)) = false) →
    List.Pairwise (fun a b => a.id ≠ b.id) Ls →
    (∀ L ∈ Ls, ∀ p ∈ L.patches, rowExistsB acc (synthNameOf p) p.md5 = true) →
    (Ls.foldl (fun a L => putPatchList false a L) acc).patches = acc.patches ∧
    (Ls.foldl (fun a L => putPatchList false a L) acc).lists = acc.lists ++ Ls.map newListRow ∧
    (Ls.foldl (fun a L => putPatchList false a L) acc).pil =
      acc.pil ++ (Ls.map (fun L => pilRowsFrom L.id 0 L.patches)).flatten := by
  induction Ls with
  | nil => intro acc _ _ _; exact ⟨rfl, by simp, by simp⟩
  | cons L rest ih =>
    intro acc hfresh hpw hok
    rw [List.foldl_cons]
    have hLfresh := hfresh L (List.mem_cons_self L rest)
    have hLok := hok L (List.mem_cons_self L rest)
    have hpatch : (putPatchList false acc L).patches = acc.patches :=
      putPatchList_patches false acc L
    have hlists : (putPatchList false acc L).lists = acc.lists ++ [newListRow L] :=
      putPatchList_lists_fresh acc L hLfresh
    have hpil : (putPatchList false acc L).pil = acc.pil ++ pilRowsFrom L.id 0 L.patches :=
      putPatchList_pil_fresh acc L hLfresh hLok
    have hpwc := List.pairwise_cons.mp hpw
    have hfresh2 : ∀ L2 ∈ rest,
        (putPatchList false acc L).lists.any (fun l => decide (l.id = L2.id)) = false := by
      intro L2 h2
      rw [hlists, List.any_append, hfresh L2 (List.mem_cons_of_mem L h2)]
      simp [newListRow_id, hpwc.1 L2 h2]
    have hok2 : ∀ L2 ∈ rest, ∀ p ∈ L2.patches,
        rowExistsB (putPatchList false acc L) (synthNameOf p) p.md5 = true := by
      intro L2 h2 p hp
      rw [rowExistsB_eq_of_patches acc (putPatchList false acc L) hpatch]
      exact hok L2 (List.mem_cons_of_mem L h2) p hp
    obtain ⟨h1, h2, h3⟩ := ih (putPatchList false acc L) hfresh2 hpwc.2 hok2
    refine ⟨by rw [h1, hpatch], ?_, ?_⟩
    · rw [h2, hlists, List.map_cons, List.append_assoc, List.singleton_append]
    · rw [h3, hpil, List.map_cons, List.flatten_cons, List.append_assoc]

theorem storeFold_update (Ls : List StoredListM) : ∀ (acc : DbState),
    (∀ L ∈ Ls, acc.lists.any (fun l => decide (l.id = L.id)) = true) →
    List.Pairwise (fun a b => a.id ≠ b.id) Ls →
    (∀ L ∈ Ls, ∀ p ∈ L.patches, rowExistsB acc (synthNameOf p) p.md5 = true) →
    (Ls.foldl (fun a L => putPatchList false a L) acc).patches = acc.patches ∧
    (Ls.foldl (fun a L => putPatchList false a L) acc).lists.map (fun l => l.id) =
      acc.lists.map (fun l => l.id) ∧
    (Ls.foldl (fun a L => putPatchList false a L) acc).pil.length =
      (acc.pil.filter (fun r => !Ls.any (fun L => decide (r.id = L.id)))).length +
        (Ls.map (fun L => L.patches.length)).sum := by
  induction Ls with
  | nil => intro acc _ _ _; exact ⟨rfl, rfl, by simp⟩
  | cons L rest ih =>
    intro acc hthere hpw hok
    rw [List.foldl_cons]
    have hLthere := hthere L (List.mem_cons_self L rest)
    have hLok := hok L (List.mem_cons_self L rest)
    have hpatch : (putPatchList false acc L).patches = acc.patches :=
      putPatchList_patches false acc L
    have hids := putPatchList_lists_ids acc L hLthere
    have hpil := putPatchList_pil_already acc L hLthere hLok
    have hpwc := List.pairwise_cons.mp hpw
    have hthere2 : ∀ L2 ∈ rest,
        (putPatchList false acc L).lists.any (fun l => decide (l.id = L2.id)) = true := by
      intro L2 h2
      rw [any_id_eq_of_map_ids _ acc.lists L2.id hids]
      exact hthere L2 (List.mem_cons_of_mem L h2)
    have hok2 : ∀ L2 ∈ rest, ∀ p ∈ L2.patches,
        rowExistsB (putPatchList false acc L) (synthNameOf p) p.md5 = true := by
      intro L2 h2 p hp
      rw [rowExistsB_eq_of_patches acc (putPatchList false acc L) hpatch]
      exact hok L2 (List.mem_cons_of_mem L h2) p hp
    obtain ⟨h1, h2, h3⟩ := ih (putPatchList false acc L) hthere2 hpwc.2 hok2
    refine ⟨by rw [h1, hpatch], by rw [h2, hids], ?_⟩
    rw [h3]
    have hsplit : (putPatchList false acc L).pil.filter
          (fun r => !rest.any (fun L2 => decide (r.id = L2.id))) =
        (acc.pil.filter (fun r => !decide (r.id = L.id))).filter
            (fun r => !rest.any (fun L2 => decide (r.id = L2.id)))
          ++ pilRowsFrom L.id 0 L.patches := by
      rw [hpil, List.filter_append]
      congr 1
      apply List.filter_eq_self.mpr
      intro r hr
      have hid := id_of_mem_pilRowsFrom L.id 0 L.patches r hr
      cases hb : rest.any (fun L2 => decide (r.id = L2.id)) with
      | false => rfl
      | true =>
        obtain ⟨L2, hL2, hdec⟩ := List.any_eq_true.mp hb
        have : r.id = L2.id := of_decide_eq_true hdec
        rw [hid] at this
        exact absurd this (hpwc.1 L2 hL2)
    have hcomp : (acc.pil.filter (fun r => !decide (r.id = L.id))).filter
          (fun r => !rest.any (fun L2 => decide (r.id = L2.id))) =
        acc.pil.filter (fun r => !(L :: rest).any (fun L2 => decide (r.id = L2.id))) := by
      rw [List.filter_filter]
      apply List.filter_congr
      intro r _
      simp only [List.any_cons, Bool.not_or]
      rw [Bool.and_comm]
    rw [hsplit, hcomp, List.length_append, length_pilRowsFrom, List.map_cons, List.sum_cons]
    omega

theorem addToGroups_keys {α : Type} (k : String) (x : α) (gs : List (String × List α)) :
    (addToGroups k x gs).map Prod.fst =
      if gs.any (fun g => decide (g.1 = k)) then gs.map Prod.fst
      else gs.map Prod.fst ++ [k] := by
  induction gs with
  | nil => rfl
  | cons g rest ih =>
    obtain ⟨k0, ys0⟩ := g
    by_cases h : k0 = k
    · simp [addToGroups, h]
    · by_cases hr : rest.any (fun g2 => decide (g2.1 = k)) = true
      · simp [addToGroups, h, ih, hr]
      · simp [addToGroups, h, ih, hr]

theorem addToGroups_sizes {α : Type} (k : String) (x : α) (gs : List (String × List α)) :
    ((addToGroups k x gs).map (fun g => g.2.length)).sum =
      (gs.map (fun g => g.2.length)).sum + 1 := by
  induction gs with
  | nil => rfl
  | cons g rest ih =>
    obtain ⟨k0, ys0⟩ := g
    by_cases h : k0 = k
    · simp [addToGroups, h]
      omega
    · simp [addToGroups, h, ih]
      omega

theorem addToGroups_inv {α : Type} (Q : α → Prop) (keyOf : α → Option String) (k : String)
    (x : α) (hQ : Q x) (hk : keyOf x = some k) :
    ∀ (gs : List (String × List α)),
    (∀ g ∈ gs, g.2 ≠ [] ∧ ∀ m ∈ g.2, Q m ∧ keyOf m = some g.1) →
    ∀ g ∈ addToGroups k x gs, g.2 ≠ [] ∧ ∀ m ∈ g.2, Q m ∧ keyOf m = some g.1 := by
  intro gs
  induction gs with
  | nil =>
    intro _ g hg
    rw [addToGroups] at hg
    rcases List.mem_cons.mp hg with rfl | hg2
    · refine ⟨by simp, ?_⟩
      intro m hm
      rw [List.mem_singleton.mp hm]
      exact ⟨hQ, hk⟩
    · exact absurd hg2 (List.not_mem_nil g)
  | cons g0 rest ih =>
    obtain ⟨k0, ys0⟩ := g0
    intro hinv g hg
    by_cases h : k0 = k
    · simp only [addToGroups, if_pos h] at hg
      rcases List.mem_cons.mp hg with rfl | hg2
      · constructor
        · simp
        · intro m hm
          rcases List.mem_append.mp hm with hm | hm
          · exact (hinv (k0, ys0) (List.mem_cons_self (k0, ys0) rest)).2 m hm
          · rw [List.mem_singleton.mp hm]
            exact ⟨hQ, by rw [hk, h]⟩
      · exact hinv g (List.mem_cons_of_mem (k0, ys0) hg2)
    · simp only [addToGroups, if_neg h] at hg
      rcases List.mem_cons.mp hg with rfl | hg2
      · exact hinv (k0, ys0) (List.mem_cons_self (k0, ys0) rest)
      · exact ih (fun g2 h2 => hinv g2 (List.mem_cons_of_mem (k0, ys0) h2)) g hg2

theorem groupFold_members {α : Type} (keyOf : α → Option String) (Q : α → Prop)
    (xs : List α) : ∀ (acc : List (String × List α)),
    (∀ x ∈ xs, Q x) →
    (∀ g ∈ acc, g.2 ≠ [] ∧ ∀ m ∈ g.2, Q m ∧ keyOf m = some g.1) →
    ∀ g ∈ xs.foldl (fun gs x =>
        match keyOf x with
        | none => gs
        | some k => addToGroups k x gs) acc,
      g.2 ≠ [] ∧ ∀ m ∈ g.2, Q m ∧ keyOf m = some g.1 := by
  induction xs with
  | nil => intro acc _ hacc; exact hacc
  | cons x rest ih =>
    intro acc hQ hacc
    rw [List.foldl_cons]
    cases hkx : keyOf x with
    | none =>
      simp only [hkx]
      exact ih acc (fun y hy => hQ y (List.mem_cons_of_mem x hy)) hacc
    | some k =>
      simp only [hkx]
      exact ih (addToGroups k x acc) (fun y hy => hQ y (List.mem_cons_of_mem x hy))
        (addToGroups_inv Q keyOf k x (hQ x (List.mem_cons_self x rest)) hkx acc hacc)

theorem groupFold_sizes {α : Type} (keyOf : α → Option String) (xs : List α) :
    ∀ (acc : List (String × List α)), ((xs.foldl (fun gs x =>
        match keyOf x with
        | none => gs
        | some k => addToGroups k x gs) acc).map (fun g => g.2.length)).sum =
      (acc.map (fun g => g.2.length)).sum + xs.countP (fun x => (keyOf x).isSome) := by
  induction xs with
  | nil => intro acc; simp
  | cons x rest ih =>
    intro acc
    rw [List.foldl_cons, List.countP_cons]
    cases hkx : keyOf x with
    | none =>
      simp only [hkx]
      rw [ih]
      simp
    | some k =>
      simp only [hkx]
      rw [ih, addToGroups_sizes]
      simp
      omega

theorem groupFold_keys_pairwise {α : Type} (keyOf : α → Option String) (xs : List α) :
    ∀ (acc : List (String × List α)), ((acc.map Prod.fst).Pairwise (fun a b => a ≠ b)) →
    (((xs.foldl (fun gs x =>
        match keyOf x with
        | none => gs
        | some k => addToGroups k x gs) acc).map Prod.fst).Pairwise (fun a b => a ≠ b)) := by
  induction xs with
  | nil => intro acc h; exact h
  | cons x rest ih =>
    intro acc hacc
    rw [List.foldl_cons]
    cases hkx : keyOf x with
    | none =>
      simp only [hkx]
      exact ih acc hacc
    | some k =>
      simp only [hkx]
      apply ih
      rw [addToGroups_keys]
      by_cases hany : acc.any (fun g => decide (g.1 = k)) = true
      · rw [if_pos hany]; exact hacc
      · rw [if_neg hany]
        refine List.pairwise_append.mpr ⟨hacc, List.pairwise_singleton _ _, ?_⟩
        intro a ha b hb
        rw [List.mem_singleton.mp hb]
        intro heq
        obtain ⟨g, hg, hga⟩ := List.mem_map.mp ha
        apply hany
        exact List.any_eq_true.mpr ⟨g, hg, by rw [hga, heq]; simp⟩

theorem groupByKey_members {α : Type} (keyOf : α → Option String) (xs : List α) :
    ∀ g ∈ groupByKey keyOf xs, g.2 ≠ [] ∧ ∀ m ∈ g.2, m ∈ xs ∧ keyOf m = some g.1 :=
  groupFold_members keyOf (fun m => m ∈ xs) xs [] (fun _ hx => hx)
    (fun g hg => absurd hg (List.not_mem_nil g))

theorem groupByKey_keys_pairwise {α : Type} (keyOf : α → Option String) (xs : List α) :
    ((groupByKey keyOf xs).map Prod.fst).Pairwise (fun a b => a ≠ b) :=
  groupFold_keys_pairwise keyOf xs [] List.Pairwise.nil

theorem groupByKey_sizes {α : Type} (keyOf : α → Option String) (xs : List α) :
    ((groupByKey keyOf xs).map (fun g => g.2.length)).sum =
      xs.countP (fun x => (keyOf x).isSome) := by
  have h := groupFold_sizes keyOf xs []
  simpa using h

theorem countP_keys_partition (ps : List PatchHolderM) :
    ps.countP (fun p => (fileKeyOf p).isSome) + ps.countP (fun p => (editKeyOf p).isSome) =
      ps.countP (fun p => p.sourceInfo.isSome) := by
  induction ps with
  | nil => rfl
  | cons p rest ih =>
    rw [List.countP_cons, List.countP_cons, List.countP_cons]
    have hpoint : (if (fileKeyOf p).isSome then 1 else 0) +
        (if (editKeyOf p).isSome then 1 else 0) =
        (if p.sourceInfo.isSome then 1 else 0) := by
      unfold fileKeyOf editKeyOf
      cases p.sourceInfo with
      | none => rfl
      | some si => cases h : SourceInfoM.isEditBufferImport (some si) <;> simp [h]
    omega

theorem md5_ne_editBufferName (si : SourceInfoM) :
    SourceInfoM.md5 si ≠ "EditBufferImport" := by
  intro h
  cases si with
  | fromSynth t b =>
    have h2 : (SourceInfoM.md5 (SourceInfoM.fromSynth t b)).data.head? = some 's' := by
      simp only [SourceInfoM.md5, String.data_append]
      rfl
    rw [h] at h2
    exact absurd h2 (by decide)
  | fromFile f p pr =>
    have h2 : (SourceInfoM.md5 (SourceInfoM.fromFile f p pr)).data.head? = some 'f' := by
      simp only [SourceInfoM.md5, String.data_append]
      rfl
    rw [h] at h2
    exact absurd h2 (by decide)
  | fromBulk t inner =>
    have h2 : (SourceInfoM.md5 (SourceInfoM.fromBulk t inner)).data.head? = some 'b' := by
      simp only [SourceInfoM.md5, String.data_append]
      rfl
    rw [h] at h2
    exact absurd h2 (by decide)

theorem fileKey_ne_editKey (s m : String) (hm : m ≠ "EditBufferImport") :
    ("import:" ++ s ++ ":" ++ m) ≠ ("import:" ++ s ++ ":EditBufferImport") := by
  intro h
  apply hm
  have hd := congrArg String.data h
  simp only [String.data_append, List.append_assoc] at hd
  have hd2 := List.append_cancel_left hd
  have hd3 := List.append_cancel_left hd2
  injection hd3 with hh ht
  cases m with
  | mk d => exact congrArg String.mk ht

theorem fileKeyOf_eq_some (ph : PatchHolderM) (k : String) (h : fileKeyOf ph = some k) :
    ∃ si, ph.sourceInfo = some si ∧ SourceInfoM.isEditBufferImport (some si) = false ∧
      k = "import:" ++ synthNameOf ph ++ ":" ++ SourceInfoM.md5 si := by
  unfold fileKeyOf at h
  cases hp : ph.sourceInfo with
  | none => rw [hp] at h; exact absurd h (by simp)
  | some si =>
    rw [hp] at h
    dsimp only at h
    by_cases heb : SourceInfoM.isEditBufferImport (some si) = true
    · rw [if_pos heb] at h
      exact absurd h (by simp)
    · rw [if_neg heb] at h
      refine ⟨si, rfl, ?_, (Option.some.inj h).symm⟩
      cases hx : SourceInfoM.isEditBufferImport (some si) with
      | false => rfl
      | true => exact absurd hx heb

theorem editKeyOf_eq_some (ph : PatchHolderM) (k : String) (h : editKeyOf ph = some k) :
    ∃ si, ph.sourceInfo = some si ∧ SourceInfoM.isEditBufferImport (some si) = true ∧
      k = "import:" ++ synthNameOf ph ++ ":EditBufferImport" := by
  unfold editKeyOf at h
  cases hp : ph.sourceInfo with
  | none => rw [hp] at h; exact absurd h (by simp)
  | some si =>
    rw [hp] at h
    dsimp only at h
    by_cases heb : SourceInfoM.isEditBufferImport (some si) = true
    · rw [if_pos heb] at h
      exact ⟨si, rfl, heb, (Option.some.inj h).symm⟩
    · rw [if_neg heb] at h
      exact absurd h (by simp)

theorem fileKeyOf_ne_editKeyOf (p q : PatchHolderM) (hs : synthNameOf p = synthNameOf q)
    (k : String) (hf : fileKeyOf p = some k) (he : editKeyOf q = some k) : False := by
  obtain ⟨si, _, _, hkf⟩ := fileKeyOf_eq_some p k hf
  obtain ⟨sj, _, _, hke⟩ := editKeyOf_eq_some q k he
  have hcmp := hkf.symm.trans hke
  rw [hs] at hcmp
  exact fileKey_ne_editKey (synthNameOf q) (SourceInfoM.md5 si)
    (md5_ne_editBufferName si) hcmp

theorem knownMd5s_empty (ps : List PatchHolderM) : knownMd5s emptyDb ps = [] := by
  induction ps with
  | nil => rfl
  | cons p rest ih =>
    unfold knownMd5s at ih ⊢
    rw [List.filterMap_cons]
    exact ih

theorem merge_empty_d0 (bits : List (String × Nat)) (isDefault : PatchHolderM → Bool)
    (ps : List PatchHolderM) :
    (mergeIntoDatabase bits isDefault emptyDb ps).1 =
      insertLoop bits isDefault emptyDb [] ps := by
  simp only [mergeIntoDatabase, knownMd5s_empty]
  have h1 : (ps.foldl (fun acc ph =>
      if ([] : List (List Nat)).contains ph.md5 then updateKnownPatch bits isDefault acc ph
      else acc) emptyDb) = emptyDb :=
    phase1_no_update bits isDefault _ ps (fun _ _ => rfl) emptyDb
  have h2 : ps.filter (fun ph => !([] : List (List Nat)).contains ph.md5) = ps :=
    List.filter_eq_self.mpr (fun _ _ => rfl)
  rw [h1, h2]

theorem knownMd5s_contains (db : DbState) (ps : List PatchHolderM)
    (h : ∀ ph ∈ ps, rowExistsB db (synthNameOf ph) ph.md5 = true) :
    ∀ ph ∈ ps, (knownMd5s db ps).contains ph.md5 = true := by
  intro ph hph
  apply List.elem_eq_true_of_mem
  unfold knownMd5s
  apply List.mem_filterMap.mpr
  exact ⟨ph, hph, by rw [h ph hph]; rfl⟩

theorem merge_known_d1 (bits : List (String × Nat)) (isDefault : PatchHolderM → Bool)
    (ps : List PatchHolderM) (db : DbState)
    (hknown : ∀ ph ∈ ps, (knownMd5s db ps).contains ph.md5 = true) :
    (mergeIntoDatabase bits isDefault db ps).1 =
      ps.foldl (fun acc ph =>
        if (knownMd5s db ps).contains ph.md5 then updateKnownPatch bits isDefault acc ph
        else acc) db := by
  simp only [mergeIntoDatabase]
  have h2 : ps.filter (fun ph => !(knownMd5s db ps).contains ph.md5) = [] :=
    List.filter_eq_nil_iff.mpr (fun ph hph => by
      have hm := hknown ph hph
      simp at hm ⊢
      exact hm)
  rw [h2]
  rfl

theorem mem_patches_loadImportList (bankSizeOf : String → Nat → Nat)
    (bits : List (String × Nat)) (db : DbState) (k synth listName : String) :
    ∀ h ∈ (loadImportList bankSizeOf bits db k synth listName).patches,
      ∃ row ∈ db.patches, h = loadHolderFromRow bankSizeOf bits row := by
  unfold loadImportList
  cases hfind : db.lists.find? (fun l => decide (l.id = k)) with
  | none => intro h hh; exact absurd hh (List.not_mem_nil h)
  | some l =>
    dsimp only
    split
    · intro h hh
      obtain ⟨r, hr, hfr⟩ := List.mem_filterMap.mp hh
      by_cases hsy : decide (r.synth = synth) = true
      · rw [if_pos hsy] at hfr
        cases hq : db.patches.find? (fun pr =>
            decide (pr.synth = r.synth) && decide (pr.md5 = r.md5)) with
        | none => rw [hq] at hfr; exact absurd hfr (by simp)
        | some row =>
          rw [hq] at hfr
          exact ⟨row, List.mem_of_find?_eq_some hq, (Option.some.inj hfr).symm⟩
      · rw [if_neg hsy] at hfr
        exact absurd hfr (by simp)
    · intro h hh; exact absurd hh (List.not_mem_nil h)

theorem length_patches_loadImportList (bankSizeOf : String → Nat → Nat)
    (bits : List (String × Nat)) (db : DbState) (k synth listName : String)
    (row0 : ListRow) (ms : List PatchHolderM)
    (hfind : db.lists.find? (fun l => decide (l.id = k)) = some row0)
    (htype : row0.listType = 3) (hsynth : row0.synth = some synth)
    (hpil : db.pil.filter (fun r => decide (r.id = k)) = pilRowsFrom k 0 ms)
    (hms : ∀ p ∈ ms, synthNameOf p = synth)
    (hex : ∀ p ∈ ms, rowExistsB db (synthNameOf p) p.md5 = true) :
    (loadImportList bankSizeOf bits db k synth listName).patches.length = ms.length := by
  unfold loadImportList
  rw [hfind]
  dsimp only
  rw [if_pos (by simp [htype, hsynth])]
  dsimp only
  rw [hpil, sortByB_of_sorted _ _ (pairwise_orderNum_pilRowsFrom k ms 0)]
  refine (length_filterMap_of_all_some _ _ ?_).trans (length_pilRowsFrom k 0 ms)
  intro r hr
  obtain ⟨p, hp, h1, h2⟩ := mem_pilRowsFrom k ms 0 r hr
  rw [if_pos (by rw [h1, hms p hp]; simp)]
  have hexp := hex p hp
  unfold rowExistsB at hexp
  obtain ⟨row, hrow, hcond⟩ := List.any_eq_true.mp hexp
  cases hq : db.patches.find? (fun pr =>
      decide (pr.synth = r.synth) && decide (pr.md5 = r.md5)) with
  | some row2 => rfl
  | none =>
    have hnone := List.find?_eq_none.mp hq row hrow
    apply absurd _ hnone
    rw [h1, h2]
    exact hcond

theorem storedGroups_pairwise (bankSizeOf : String → Nat → Nat) (bits : List (String × Nat))
    (dbf dbe : DbState) (ps : List PatchHolderM) (S : String)
    (hS : ∀ p ∈ ps, p.synth = some S) :
    List.Pairwise (fun a b => a.id ≠ b.id)
      ((groupByKey fileKeyOf ps).map
          (fun km => mkStoredGroup bankSizeOf bits dbf false km.1 km.2) ++
       (groupByKey editKeyOf ps).map
          (fun km => mkStoredGroup bankSizeOf bits dbe true km.1 km.2)) := by
  apply List.pairwise_append.mpr
  refine ⟨?_, ?_, ?_⟩
  · apply List.pairwise_map.mpr
    have h := groupByKey_keys_pairwise fileKeyOf ps
    rw [List.pairwise_map] at h
    exact h.imp (fun hne => by simpa [mkStoredGroup_id] using hne)
  · apply List.pairwise_map.mpr
    have h := groupByKey_keys_pairwise editKeyOf ps
    rw [List.pairwise_map] at h
    exact h.imp (fun hne => by simpa [mkStoredGroup_id] using hne)
  · intro a ha b hb
    obtain ⟨g, hg, rfl⟩ := List.mem_map.mp ha
    obtain ⟨g2, hg2, rfl⟩ := List.mem_map.mp hb
    rw [mkStoredGroup_id, mkStoredGroup_id]
    obtain ⟨hne, hmem⟩ := groupByKey_members fileKeyOf ps g hg
    obtain ⟨hne2, hmem2⟩ := groupByKey_members editKeyOf ps g2 hg2
    have hm := hmem _ (headD_mem_of_ne_nil g.2 hne)
    have hn := hmem2 _ (headD_mem_of_ne_nil g2.2 hne2)
    intro heq
    apply fileKeyOf_ne_editKeyOf (g.2.headD default) (g2.2.headD default) ?_ g.1 hm.2
      (by rw [heq]; exact hn.2)
    rw [synthNameOf_eq _ S (hS _ hm.1), synthNameOf_eq _ S (hS _ hn.1)]

theorem sizes_of_groups_nil (bankSizeOf : String → Nat → Nat) (bits : List (String × Nat))
    (d0 : DbState) (ps : List PatchHolderM) (hlists0 : d0.lists = []) :
    (((groupByKey fileKeyOf ps).map
          (fun km => mkStoredGroup bankSizeOf bits d0 false km.1 km.2) ++
      (groupByKey editKeyOf ps).map
          (fun km => mkStoredGroup bankSizeOf bits d0 true km.1 km.2)).map
       (fun L => L.patches.length)).sum = ps.countP (fun p => p.sourceInfo.isSome) := by
  rw [List.map_append, List.sum_append, List.map_map, List.map_map]
  have hf : ((groupByKey fileKeyOf ps).map
      ((fun L => L.patches.length) ∘ (fun km => mkStoredGroup bankSizeOf bits d0 false km.1 km.2))) =
      (groupByKey fileKeyOf ps).map (fun g => g.2.length) := by
    apply List.map_congr_left
    intro g _
    dsimp only [Function.comp]
    rw [mkStoredGroup_patches_of_lists_nil _ _ _ _ _ _ hlists0]
  have he : ((groupByKey editKeyOf ps).map
      ((fun L => L.patches.length) ∘ (fun km => mkStoredGroup bankSizeOf bits d0 true km.1 km.2))) =
      (groupByKey editKeyOf ps).map (fun g => g.2.length) := by
    apply List.map_congr_left
    intro g _
    dsimp only [Function.comp]
    rw [mkStoredGroup_patches_of_lists_nil _ _ _ _ _ _ hlists0]
  rw [hf, he, groupByKey_sizes, groupByKey_sizes, countP_keys_partition]

theorem c3_store_round1 (bankSizeOf : String → Nat → Nat) (bits : List (String × Nat))
    (ps : List PatchHolderM) (S : String) (hS : ∀ p ∈ ps, p.synth = some S) (d0 : DbState)
    (hlists0 : d0.lists = []) (hpil0 : d0.pil = [])
    (hex0 : ∀ ph ∈ ps, rowExistsB d0 (synthNameOf ph) ph.md5 = true) :
    (sortPatchesIntoImportListsM bankSizeOf bits d0 ps).patches = d0.patches ∧
    (sortPatchesIntoImportListsM bankSizeOf bits d0 ps).lists =
      ((groupByKey fileKeyOf ps).map
          (fun km => mkStoredGroup bankSizeOf bits d0 false km.1 km.2) ++
       (groupByKey editKeyOf ps).map
          (fun km => mkStoredGroup bankSizeOf bits d0 true km.1 km.2)).map newListRow ∧
    (sortPatchesIntoImportListsM bankSizeOf bits d0 ps).pil =
      ((((groupByKey fileKeyOf ps).map
          (fun km => mkStoredGroup bankSizeOf bits d0 false km.1 km.2) ++
        (groupByKey editKeyOf ps).map
          (fun km => mkStoredGroup bankSizeOf bits d0 true km.1 km.2)).map
         (fun L => pilRowsFrom L.id 0 L.patches)).flatten) ∧
    (sortPatchesIntoImportListsM bankSizeOf bits d0 ps).pil.length =
      ps.countP (fun p => p.sourceInfo.isSome) := by
  have hfresh : ∀ L ∈ ((groupByKey fileKeyOf ps).map
        (fun km => mkStoredGroup bankSizeOf bits d0 false km.1 km.2) ++
      (groupByKey editKeyOf ps).map
        (fun km => mkStoredGroup bankSizeOf bits d0 true km.1 km.2)),
      d0.lists.any (fun l => decide (l.id = L.id)) = false := by
    intro L _
    rw [hlists0]
    rfl
  have hpw := storedGroups_pairwise bankSizeOf bits d0 d0 ps S hS
  have hok : ∀ L ∈ ((groupByKey fileKeyOf ps).map
        (fun km => mkStoredGroup bankSizeOf bits d0 false km.1 km.2) ++
      (groupByKey editKeyOf ps).map
        (fun km => mkStoredGroup bankSizeOf bits d0 true km.1 km.2)),
      ∀ p ∈ L.patches, rowExistsB d0 (synthNameOf p) p.md5 = true := by
    intro L hL p hp
    rcases List.mem_append.mp hL with hL | hL
    · obtain ⟨g, hg, rfl⟩ := List.mem_map.mp hL
      rw [mkStoredGroup_patches_of_lists_nil _ _ _ _ _ _ hlists0] at hp
      exact hex0 p ((groupByKey_members fileKeyOf ps g hg).2 p hp).1
    · obtain ⟨g, hg, rfl⟩ := List.mem_map.mp hL
      rw [mkStoredGroup_patches_of_lists_nil _ _ _ _ _ _ hlists0] at hp
      exact hex0 p ((groupByKey_members editKeyOf ps g hg).2 p hp).1
  obtain ⟨h1, h2, h3⟩ := storeFold_fresh _ d0 hfresh hpw hok
  refine ⟨h1, ?_, ?_, ?_⟩
  · rw [hlists0] at h2
    exact h2.trans (List.nil_append _)
  · rw [hpil0] at h3
    exact h3.trans (List.nil_append _)
  · have h4 : (sortPatchesIntoImportListsM bankSizeOf bits d0 ps).pil =
        ((((groupByKey fileKeyOf ps).map
            (fun km => mkStoredGroup bankSizeOf bits d0 false km.1 km.2) ++
          (groupByKey editKeyOf ps).map
            (fun km => mkStoredGroup bankSizeOf bits d0 true km.1 km.2)).map
           (fun L => pilRowsFrom L.id 0 L.patches)).flatten) := by
      rw [hpil0] at h3
      exact h3.trans (List.nil_append _)
    rw [h4, List.length_flatten, List.map_map]
    have h5 : ∀ L ∈ ((groupByKey fileKeyOf ps).map
          (fun km => mkStoredGroup bankSizeOf bits d0 false km.1 km.2) ++
        (groupByKey editKeyOf ps).map
          (fun km => mkStoredGroup bankSizeOf bits d0 true km.1 km.2)),
        (List.length ∘ (fun L => pilRowsFrom L.id 0 L.patches)) L = L.patches.length := by
      intro L _
      dsimp only [Function.comp]
      exact length_pilRowsFrom L.id 0 L.patches
    rw [List.map_congr_left h5]
    exact sizes_of_groups_nil bankSizeOf bits d0 ps hlists0

theorem c3_store_round2 (bankSizeOf : String → Nat → Nat) (bits : List (String × Nat))
    (ps : List PatchHolderM) (S : String) (hS : ∀ p ∈ ps, p.synth = some S)
    (d0 dcur : DbState) (hlists0 : d0.lists = [])
    (hlists : dcur.lists = (importGroupLists bankSizeOf bits d0 ps).map newListRow)
    (hpil : dcur.pil = ((importGroupLists bankSizeOf bits d0 ps).map
      (fun L => pilRowsFrom L.id 0 L.patches)).flatten)
    (hex : ∀ ph ∈ ps, rowExistsB dcur (synthNameOf ph) ph.md5 = true)
    (hwf : WellFormedRows dcur) :
    (sortPatchesIntoImportListsM bankSizeOf bits dcur ps).patches = dcur.patches ∧
    (sortPatchesIntoImportListsM bankSizeOf bits dcur ps).lists.length = dcur.lists.length ∧
    (sortPatchesIntoImportListsM bankSizeOf bits dcur ps).pil.length =
      2 * ps.countP (fun p => p.sourceInfo.isSome) := by
  unfold importGroupLists at hlists hpil
  have hpw1 := storedGroups_pairwise bankSizeOf bits d0 d0 ps S hS
  have hpw2 := storedGroups_pairwise bankSizeOf bits dcur dcur ps S hS
  -- each stored key already has a lists row (written by round 1)
  have hthere : ∀ L ∈ ((groupByKey fileKeyOf ps).map
        (fun km => mkStoredGroup bankSizeOf bits dcur false km.1 km.2) ++
      (groupByKey editKeyOf ps).map
        (fun km => mkStoredGroup bankSizeOf bits dcur true km.1 km.2)),
      dcur.lists.any (fun l => decide (l.id = L.id)) = true := by
    intro L hL
    rw [hlists]
    rcases List.mem_append.mp hL with hL | hL
    · obtain ⟨g, hg, rfl⟩ := List.mem_map.mp hL
      apply List.any_eq_true.mpr
      refine ⟨newListRow (mkStoredGroup bankSizeOf bits d0 false g.1 g.2), ?_, ?_⟩
      · exact List.mem_map.mpr ⟨mkStoredGroup bankSizeOf bits d0 false g.1 g.2,
          List.mem_append_left _ (List.mem_map.mpr ⟨g, hg, rfl⟩), rfl⟩
      · simp [newListRow_id, mkStoredGroup_id]
    · obtain ⟨g, hg, rfl⟩ := List.mem_map.mp hL
      apply List.any_eq_true.mpr
      refine ⟨newListRow (mkStoredGroup bankSizeOf bits d0 true g.1 g.2), ?_, ?_⟩
      · exact List.mem_map.mpr ⟨mkStoredGroup bankSizeOf bits d0 true g.1 g.2,
          List.mem_append_right _ (List.mem_map.mpr ⟨g, hg, rfl⟩), rfl⟩
      · simp [newListRow_id, mkStoredGroup_id]
  -- every member of every stored list has a patches row
  have hok : ∀ L ∈ ((groupByKey fileKeyOf ps).map
        (fun km => mkStoredGroup bankSizeOf bits dcur false km.1 km.2) ++
      (groupByKey editKeyOf ps).map
        (fun km => mkStoredGroup bankSizeOf bits dcur true km.1 km.2)),
      ∀ p ∈ L.patches, rowExistsB dcur (synthNameOf p) p.md5 = true := by
    intro L hL p hp
    rcases List.mem_append.mp hL with hL | hL
    · obtain ⟨g, hg, rfl⟩ := List.mem_map.mp hL
      rw [mkStoredGroup_patches] at hp
      rcases List.mem_append.mp hp with hp | hp
      · obtain ⟨row, hrow, rfl⟩ := mem_patches_loadImportList bankSizeOf bits dcur g.1 _ _ p hp
        exact rowExists_of_loaded bankSizeOf bits dcur row hrow hwf
      · exact hex p ((groupByKey_members fileKeyOf ps g hg).2 p hp).1
    · obtain ⟨g, hg, rfl⟩ := List.mem_map.mp hL
      rw [mkStoredGroup_patches] at hp
      rcases List.mem_append.mp hp with hp | hp
      · obtain ⟨row, hrow, rfl⟩ := mem_patches_loadImportList bankSizeOf bits dcur g.1 _ _ p hp
        exact rowExists_of_loaded bankSizeOf bits dcur row hrow hwf
      · exact hex p ((groupByKey_members editKeyOf ps g hg).2 p hp).1
  -- each reloaded list carries its stored members again: the stored list doubles
  have hlenf : ∀ g ∈ groupByKey fileKeyOf ps,
      (mkStoredGroup bankSizeOf bits dcur false g.1 g.2).patches.length =
        g.2.length + g.2.length := by
    intro g hg
    have hmemf := groupByKey_members fileKeyOf ps g hg
    have hmem1 : mkStoredGroup bankSizeOf bits d0 false g.1 g.2 ∈
        ((groupByKey fileKeyOf ps).map
          (fun km => mkStoredGroup bankSizeOf bits d0 false km.1 km.2) ++
         (groupByKey editKeyOf ps).map
          (fun km => mkStoredGroup bankSizeOf bits d0 true km.1 km.2)) :=
      List.mem_append_left _ (List.mem_map.mpr ⟨g, hg, rfl⟩)
    rw [mkStoredGroup_patches, List.length_append]
    congr 1
    have himp := newListRow_import (mkStoredGroup bankSizeOf bits d0 false g.1 g.2)
      (synthNameOf (g.2.headD default)) (mkStoredGroup_kind bankSizeOf bits d0 false g.1 g.2)
    refine length_patches_loadImportList bankSizeOf bits dcur g.1 _ _
      (newListRow (mkStoredGroup bankSizeOf bits d0 false g.1 g.2)) g.2 ?_ himp.1 himp.2
      ?_ ?_ ?_
    · rw [hlists]
      have h6 := find?_map_newListRow _ _ hmem1 hpw1
      simpa [mkStoredGroup_id] using h6
    · rw [hpil]
      have h7 := filter_flatten_pilRows _ _ hmem1 hpw1
      rw [mkStoredGroup_id] at h7
      rw [mkStoredGroup_patches_of_lists_nil _ _ _ _ _ _ hlists0] at h7
      exact h7
    · intro p hp
      rw [synthNameOf_eq p S (hS p (hmemf.2 p hp).1),
        synthNameOf_eq (g.2.headD default) S
          (hS _ (hmemf.2 _ (headD_mem_of_ne_nil g.2 hmemf.1)).1)]
    · intro p hp
      exact hex p (hmemf.2 p hp).1
  have hlene : ∀ g ∈ groupByKey editKeyOf ps,
      (mkStoredGroup bankSizeOf bits dcur true g.1 g.2).patches.length =
        g.2.length + g.2.length := by
    intro g hg
    have hmemf := groupByKey_members editKeyOf ps g hg
    have hmem1 : mkStoredGroup bankSizeOf bits d0 true g.1 g.2 ∈
        ((groupByKey fileKeyOf ps).map
          (fun km => mkStoredGroup bankSizeOf bits d0 false km.1 km.2) ++
         (groupByKey editKeyOf ps).map
          (fun km => mkStoredGroup bankSizeOf bits d0 true km.1 km.2)) :=
      List.mem_append_right _ (List.mem_map.mpr ⟨g, hg, rfl⟩)
    rw [mkStoredGroup_patches, List.length_append]
    congr 1
    have himp := newListRow_import (mkStoredGroup bankSizeOf bits d0 true g.1 g.2)
      (synthNameOf (g.2.headD default)) (mkStoredGroup_kind bankSizeOf bits d0 true g.1 g.2)
    refine length_patches_loadImportList bankSizeOf bits dcur g.1 _ _
      (newListRow (mkStoredGroup bankSizeOf bits d0 true g.1 g.2)) g.2 ?_ himp.1 himp.2
      ?_ ?_ ?_
    · rw [hlists]
      have h6 := find?_map_newListRow _ _ hmem1 hpw1
      simpa [mkStoredGroup_id] using h6
    · rw [hpil]
      have h7 := filter_flatten_pilRows _ _ hmem1 hpw1
      rw [mkStoredGroup_id] at h7
      rw [mkStoredGroup_patches_of_lists_nil _ _ _ _ _ _ hlists0] at h7
      exact h7
    · intro p hp
      rw [synthNameOf_eq p S (hS p (hmemf.2 p hp).1),
        synthNameOf_eq (g.2.headD default) S
          (hS _ (hmemf.2 _ (headD_mem_of_ne_nil g.2 hmemf.1)).1)]
    · intro p hp
      exact hex p (hmemf.2 p hp).1
  obtain ⟨h1, h2, h3⟩ := storeFold_update _ dcur hthere hpw2 hok
  refine ⟨h1, ?_, ?_⟩
  · have hlen := congrArg List.length h2
    rw [List.length_map, List.length_map] at hlen
    exact hlen
  · -- every stored membership row belongs to one of the keys being restored
    have hcov : ∀ r ∈ dcur.pil,
        (((groupByKey fileKeyOf ps).map
            (fun km => mkStoredGroup bankSizeOf bits dcur false km.1 km.2) ++
          (groupByKey editKeyOf ps).map
            (fun km => mkStoredGroup bankSizeOf bits dcur true km.1 km.2)).any
          (fun L => decide (r.id = L.id))) = true := by
      intro r hr
      rw [hpil] at hr
      obtain ⟨sub, hsub, hrsub⟩ := List.mem_flatten.mp hr
      obtain ⟨L1, hL1, rfl⟩ := List.mem_map.mp hsub
      have hid := id_of_mem_pilRowsFrom L1.id 0 L1.patches r hrsub
      rcases List.mem_append.mp hL1 with hL1 | hL1
      · obtain ⟨g, hg, rfl⟩ := List.mem_map.mp hL1
        apply List.any_eq_true.mpr
        refine ⟨mkStoredGroup bankSizeOf bits dcur false g.1 g.2,
          List.mem_append_left _ (List.mem_map.mpr ⟨g, hg, rfl⟩), ?_⟩
        rw [mkStoredGroup_id] at hid
        simp [hid, mkStoredGroup_id]
      · obtain ⟨g, hg, rfl⟩ := List.mem_map.mp hL1
        apply List.any_eq_true.mpr
        refine ⟨mkStoredGroup bankSizeOf bits dcur true g.1 g.2,
          List.mem_append_right _ (List.mem_map.mpr ⟨g, hg, rfl⟩), ?_⟩
        rw [mkStoredGroup_id] at hid
        simp [hid, mkStoredGroup_id]
    have hnil : dcur.pil.filter (fun r =>
        !(((groupByKey fileKeyOf ps).map
            (fun km => mkStoredGroup bankSizeOf bits dcur false km.1 km.2) ++
          (groupByKey editKeyOf ps).map
            (fun km => mkStoredGroup bankSizeOf bits dcur true km.1 km.2)).any
          (fun L => decide (r.id = L.id)))) = [] :=
      List.filter_eq_nil_iff.mpr (fun r hr => by simp [hcov r hr])
    have hsum : (((groupByKey fileKeyOf ps).map
          (fun km => mkStoredGroup bankSizeOf bits dcur false km.1 km.2) ++
        (groupByKey editKeyOf ps).map
          (fun km => mkStoredGroup bankSizeOf bits dcur true km.1 km.2)).map
         (fun L => L.patches.length)).sum =
        2 * ps.countP (fun p => p.sourceInfo.isSome) := by
      rw [List.map_append, List.sum_append, List.map_map, List.map_map]
      have hfc : ((groupByKey fileKeyOf ps).map
          ((fun L => L.patches.length) ∘
            (fun km => mkStoredGroup bankSizeOf bits dcur false km.1 km.2))) =
          (groupByKey fileKeyOf ps).map (fun g => g.2.length + g.2.length) :=
        List.map_congr_left (fun g hg => hlenf g hg)
      have hec : ((groupByKey editKeyOf ps).map
          ((fun L => L.patches.length) ∘
            (fun km => mkStoredGroup bankSizeOf bits dcur true km.1 km.2))) =
          (groupByKey editKeyOf ps).map (fun g => g.2.length + g.2.length) :=
        List.map_congr_left (fun g hg => hlene g hg)
      rw [hfc, hec, sum_map_add, sum_map_add, groupByKey_sizes, groupByKey_sizes]
      have := countP_keys_partition ps
      omega
    rw [hnil, hsum] at h3
    simp only [List.length_nil, Nat.zero_add] at h3
    exact h3

/-! ### C3 — merging the same batch twice into an empty catalog -/

/-- C3 (amended): merging a fixed single-synth batch into an empty catalog
twice leaves the same number of patch rows and of lists as merging it
once; but it does not leave the same number of list entries: the first
merge writes one `patch_in_list` row per source-attributed patch, and the
second merge re-appends every batch member to the import list it already
sits in, doubling the membership rows. -/
theorem c3_amended_merge_twice (bankSizeOf : String → Nat → Nat) (bits : List (String × Nat))
    (isDefault : PatchHolderM → Bool) (S : String) (ps : List PatchHolderM)
    (hS : ∀ p ∈ ps, p.synth = some S) :
    (mergeAndCreateImportLists bankSizeOf bits isDefault
        (mergeAndCreateImportLists bankSizeOf bits isDefault emptyDb ps) ps).patches.length =
      (mergeAndCreateImportLists bankSizeOf bits isDefault emptyDb ps).patches.length ∧
    (mergeAndCreateImportLists bankSizeOf bits isDefault
        (mergeAndCreateImportLists bankSizeOf bits isDefault emptyDb ps) ps).lists.length =
      (mergeAndCreateImportLists bankSizeOf bits isDefault emptyDb ps).lists.length ∧
    (mergeAndCreateImportLists bankSizeOf bits isDefault emptyDb ps).pil.length =
      ps.countP (fun p => p.sourceInfo.isSome) ∧
    (mergeAndCreateImportLists bankSizeOf bits isDefault
        (mergeAndCreateImportLists bankSizeOf bits isDefault emptyDb ps) ps).pil.length =
      2 * (mergeAndCreateImportLists bankSizeOf bits isDefault emptyDb ps).pil.length := by
  have hmd5S : ∀ p ∈ ps, ∀ q ∈ ps, p.md5 = q.md5 → synthNameOf p = synthNameOf q := by
    intro p hp q hq _
    rw [synthNameOf_eq p S (hS p hp), synthNameOf_eq q S (hS q hq)]
  have hl0 : (insertLoop bits isDefault emptyDb [] ps).lists = [] :=
    insertLoop_lists bits isDefault ps emptyDb []
  have hp0 : (insertLoop bits isDefault emptyDb [] ps).pil = [] :=
    insertLoop_pil bits isDefault ps emptyDb []
  have hwf0 : WellFormedRows (insertLoop bits isDefault emptyDb [] ps) :=
    insertLoop_wf bits isDefault ps emptyDb [] (fun r hr => absurd hr (List.not_mem_nil r))
  have hex0 : ∀ ph ∈ ps,
      rowExistsB (insertLoop bits isDefault emptyDb [] ps) (synthNameOf ph) ph.md5 = true :=
    insertLoop_covers bits isDefault ps hmd5S ps emptyDb []
      (fun e he => absurd he (List.not_mem_nil e)) (fun _ h => h)
  obtain ⟨h1p, h1l, h1pil, h1len⟩ := c3_store_round1 bankSizeOf bits ps S hS
    (insertLoop bits isDefault emptyDb [] ps) hl0 hp0 hex0
  have hm0 : (mergeIntoDatabase bits isDefault emptyDb ps).1 =
      insertLoop bits isDefault emptyDb [] ps := merge_empty_d0 bits isDefault ps
  have hd1 : mergeAndCreateImportLists bankSizeOf bits isDefault emptyDb ps =
      sortPatchesIntoImportListsM bankSizeOf bits (insertLoop bits isDefault emptyDb [] ps)
        ps := by
    unfold mergeAndCreateImportLists
    rw [hm0]
  have hd1p : (mergeAndCreateImportLists bankSizeOf bits isDefault emptyDb ps).patches =
      (insertLoop bits isDefault emptyDb [] ps).patches := by rw [hd1]; exact h1p
  have hd1l : (mergeAndCreateImportLists bankSizeOf bits isDefault emptyDb ps).lists =
      (importGroupLists bankSizeOf bits (insertLoop bits isDefault emptyDb [] ps) ps).map
        newListRow := by rw [hd1]; exact h1l
  have hd1pil : (mergeAndCreateImportLists bankSizeOf bits isDefault emptyDb ps).pil =
      ((importGroupLists bankSizeOf bits (insertLoop bits isDefault emptyDb [] ps) ps).map
        (fun L => pilRowsFrom L.id 0 L.patches)).flatten := by rw [hd1]; exact h1pil
  have hd1len : (mergeAndCreateImportLists bankSizeOf bits isDefault emptyDb ps).pil.length =
      ps.countP (fun p => p.sourceInfo.isSome) := by rw [hd1]; exact h1len
  have hex1 : ∀ ph ∈ ps,
      rowExistsB (mergeAndCreateImportLists bankSizeOf bits isDefault emptyDb ps)
        (synthNameOf ph) ph.md5 = true := by
    intro ph h
    rw [rowExistsB_eq_of_patches (insertLoop bits isDefault emptyDb [] ps) _ hd1p]
    exact hex0 ph h
  have hwf1 : WellFormedRows (mergeAndCreateImportLists bankSizeOf bits isDefault emptyDb ps) :=
    wf_of_patches_eq _ _ hd1p hwf0
  have hkn := knownMd5s_contains
    (mergeAndCreateImportLists bankSizeOf bits isDefault emptyDb ps) ps hex1
  have hm1 := merge_known_d1 bits isDefault ps
    (mergeAndCreateImportLists bankSizeOf bits isDefault emptyDb ps) hkn
  have hl2 : (mergeIntoDatabase bits isDefault
      (mergeAndCreateImportLists bankSizeOf bits isDefault emptyDb ps) ps).1.lists =
      (mergeAndCreateImportLists bankSizeOf bits isDefault emptyDb ps).lists := by
    rw [hm1]
    exact phase1_lists bits isDefault _ ps _
  have hp2 : (mergeIntoDatabase bits isDefault
      (mergeAndCreateImportLists bankSizeOf bits isDefault emptyDb ps) ps).1.pil =
      (mergeAndCreateImportLists bankSizeOf bits isDefault emptyDb ps).pil := by
    rw [hm1]
    exact phase1_pil bits isDefault _ ps _
  have hlen2 : (mergeIntoDatabase bits isDefault
      (mergeAndCreateImportLists bankSizeOf bits isDefault emptyDb ps) ps).1.patches.length =
      (mergeAndCreateImportLists bankSizeOf bits isDefault emptyDb ps).patches.length := by
    rw [hm1]
    exact phase1_length bits isDefault _ ps _
  have hex2 : ∀ ph ∈ ps, rowExistsB (mergeIntoDatabase bits isDefault
      (mergeAndCreateImportLists bankSizeOf bits isDefault emptyDb ps) ps).1
      (synthNameOf ph) ph.md5 = true := by
    intro ph h
    rw [hm1, phase1_rowExists]
    exact hex1 ph h
  have hwf2 : WellFormedRows (mergeIntoDatabase bits isDefault
      (mergeAndCreateImportLists bankSizeOf bits isDefault emptyDb ps) ps).1 := by
    rw [hm1]
    exact phase1_wf bits isDefault _ ps _ hwf1
  obtain ⟨h2p, h2l, h2pil⟩ := c3_store_round2 bankSizeOf bits ps S hS
    (insertLoop bits isDefault emptyDb [] ps)
    (mergeIntoDatabase bits isDefault
      (mergeAndCreateImportLists bankSizeOf bits isDefault emptyDb ps) ps).1
    hl0 (by rw [hl2]; exact hd1l) (by rw [hp2]; exact hd1pil) hex2 hwf2
  refine ⟨?_, ?_, hd1len, ?_⟩
  · have h := congrArg List.length h2p
    rw [hlen2] at h
    exact h
  · exact h2l.trans (congrArg List.length hl2)
  · rw [hd1len]
    exact h2pil

/-- Concrete refutation of the claimed idempotence: merging the one-patch
batch `[holderTS]` (one file-sourced patch of synth TS) into the empty
catalog once leaves one `patch_in_list` row; merging it a second time
leaves two — the two outcomes differ, while patch rows and lists agree. -/
theorem c3_counterexample :
    (mergeAndCreateImportLists (fun _ _ => 0) [] (fun _ => false)
        (mergeAndCreateImportLists (fun _ _ => 0) [] (fun _ => false) emptyDb [holderTS])
        [holderTS]).pil.length = 2 ∧
    (mergeAndCreateImportLists (fun _ _ => 0) [] (fun _ => false) emptyDb
        [holderTS]).pil.length = 1 := by
  decide

/-- Witness for the C3 amendment at the concrete one-patch batch. -/
theorem c3_amended_merge_twice_witness :
    (∀ p ∈ [holderTS], p.synth = some "TS") ∧
    ((mergeAndCreateImportLists (fun _ _ => 0) [] (fun _ => false)
        (mergeAndCreateImportLists (fun _ _ => 0) [] (fun _ => false) emptyDb [holderTS])
        [holderTS]).patches.length =
      (mergeAndCreateImportLists (fun _ _ => 0) [] (fun _ => false) emptyDb
        [holderTS]).patches.length ∧
    (mergeAndCreateImportLists (fun _ _ => 0) [] (fun _ => false)
        (mergeAndCreateImportLists (fun _ _ => 0) [] (fun _ => false) emptyDb [holderTS])
        [holderTS]).lists.length =
      (mergeAndCreateImportLists (fun _ _ => 0) [] (fun _ => false) emptyDb
        [holderTS]).lists.length ∧
    (mergeAndCreateImportLists (fun _ _ => 0) [] (fun _ => false) emptyDb
        [holderTS]).pil.length =
      [holderTS].countP (fun p => p.sourceInfo.isSome) ∧
    (mergeAndCreateImportLists (fun _ _ => 0) [] (fun _ => false)
        (mergeAndCreateImportLists (fun _ _ => 0) [] (fun _ => false) emptyDb [holderTS])
        [holderTS]).pil.length =
      2 * (mergeAndCreateImportLists (fun _ _ => 0) [] (fun _ => false) emptyDb
        [holderTS]).pil.length) :=
  ⟨by decide,
   c3_amended_merge_twice (fun _ _ => 0) [] (fun _ => false) "TS" [holderTS] (by decide)⟩

end MidiKraft

